import Mathlib

/-!
Verification of the AudioBook-Reader chunking pipeline and WAV encoder.

Text is modelled as `List Char` (JS strings; the inputs at issue live in the
BMP, so one JS UTF-16 code unit corresponds to one `Char`). Each definition
is a direct transcription of the corresponding function of the repository;
general recursion of the source is rendered with an explicit fuel parameter
so that every definition is structural and computable, and a theorem shows
the fuel never runs out at the values the wrappers supply.
-/

namespace AudiobookReader

/-- Character list of a Lean string literal. -/
def str (s : String) : List Char := s.data

/-- The JS regex class `\s` (whitespace), restricted to the code points it
actually contains: ASCII whitespace, NEL is not included, plus the Unicode
space separators, line/paragraph separators, NBSP and BOM. -/
def isWs (c : Char) : Bool :=
  c == ' ' || c == '\t' || c == '\n' || c == '\r' ||
  c.toNat == 11 || c.toNat == 12 || c.toNat == 0xa0 || c.toNat == 0x1680 ||
  (Nat.ble 0x2000 c.toNat && Nat.ble c.toNat 0x200a) ||
  c.toNat == 0x2028 || c.toNat == 0x2029 || c.toNat == 0x202f ||
  c.toNat == 0x205f || c.toNat == 0x3000 || c.toNat == 0xfeff

/-- JS `String.prototype.trim`: drop leading and trailing whitespace. -/
def trim (l : List Char) : List Char :=
  ((l.dropWhile isWs).reverse.dropWhile isWs).reverse

/-- Remove every whitespace character. Two strings are equal "modulo the
whitespace used as separators" exactly when their `stripWs` images agree. -/
def stripWs (l : List Char) : List Char := l.filter (fun c => !isWs c)

/-- Does `l` start with `pat`? (JS `String.prototype.startsWith`.) -/
def startsWith : List Char → List Char → Bool
  | [], _ => true
  | _ :: _, [] => false
  | c :: p, d :: l => c == d && startsWith p l

/-- Does `l` contain `pat` as a contiguous substring? (JS `includes`.) -/
def containsSeq (pat : List Char) : List Char → Bool
  | [] => pat.isEmpty
  | c :: rest => startsWith pat (c :: rest) || containsSeq pat rest

/-- Does `l` end with `pat`? (JS `String.prototype.endsWith`.) -/
def endsWith (pat l : List Char) : Bool := startsWith pat.reverse l.reverse

/-- Splitter state machine for the JS regex split on `/\n\n+/`: `acc` is the
reversed current piece, `nl` counts newlines seen but not yet committed.  A
run of two or more newlines is a separator (consumed greedily); a single
newline stays inside the piece. -/
def splitBLAux : List Char → Nat → List Char → List (List Char)
  | acc, nl, [] =>
      if 2 ≤ nl then [acc.reverse, []] else [acc.reverse ++ List.replicate nl '\n']
  | acc, nl, c :: rest =>
      if c = '\n' then splitBLAux acc (nl + 1) rest
      else if 2 ≤ nl then acc.reverse :: splitBLAux [c] 0 rest
      else splitBLAux (c :: (List.replicate nl '\n' ++ acc)) 0 rest

/-- JS `text.split(/\n\n+/)`. -/
def splitOnBlankLines (l : List Char) : List (List Char) := splitBLAux [] 0 l

/-- `splitTextIntoParagraphs` of the source:
`text.split(/\n\n+/).map(p => p.trim()).filter(p => p.length > 0)`. -/
def splitTextIntoParagraphs (l : List Char) : List (List Char) :=
  ((splitOnBlankLines l).map trim).filter (fun p => !p.isEmpty)

/-- The sentence-final punctuation of the splitting regex: `[.?!]`. -/
def isSentEnd (c : Char) : Bool := c == '.' || c == '?' || c == '!'

/-- The sentence-start class of the splitting regex:
`[A-ZА-ЯЁ0-9"“«‘“„\[\(]` (Latin and Cyrillic capitals, digits, opening
quotes and brackets). -/
def isSentStart (c : Char) : Bool :=
  (Nat.ble 65 c.toNat && Nat.ble c.toNat 90) ||
  (Nat.ble 0x410 c.toNat && Nat.ble c.toNat 0x42f) || c.toNat == 0x401 ||
  (Nat.ble 48 c.toNat && Nat.ble c.toNat 57) ||
  c == '"' || c.toNat == 0x201c || c.toNat == 0xab ||
  c.toNat == 0x2018 || c.toNat == 0x201e || c == '[' || c == '('

/-- Length of the leading whitespace run. -/
def wsRunLen (l : List Char) : Nat := (l.takeWhile isWs).length

/-- Is the head of `l` in the sentence-start class? -/
def headIsSentStart : List Char → Bool
  | [] => false
  | c :: _ => isSentStart c

/-- Matcher for one position of the sentence-splitting regex
`/(?<=[.?!])\s+(?=start)|(?<=\n)\s*(?=start)/g`: `prev` is the character
before the position, `l` the text from the position on.  Returns the length
of the separator matched there.  Because the start class contains no
whitespace, only the maximal whitespace run can satisfy the lookahead, so
greedy matching needs no backtracking. -/
def matchSentSep (prev : Char) (l : List Char) : Option Nat :=
  let k := wsRunLen l
  if isSentEnd prev && Nat.ble 1 k && headIsSentStart (l.drop k) then some k
  else if prev == '\n' && headIsSentStart (l.drop k) then some k
  else none

/-- JS `String.prototype.split` driven by `matchSentSep`, one character of
progress per step (a zero-width match at the start of the current piece is
skipped, as the ECMAScript split algorithm prescribes; a zero-width match
elsewhere cuts and then consumes the next character).  `fuel` only bounds
the recursion; `splitSentences` supplies enough for it never to run out. -/
def splitSentAux : Nat → Option Char → List Char → List Char → List (List Char)
  | _, _, acc, [] => [acc.reverse]
  | 0, _, acc, l => [acc.reverse ++ l]
  | fuel + 1, none, acc, c :: rest => splitSentAux fuel (some c) (c :: acc) rest
  | fuel + 1, some prev, acc, c :: rest =>
      match matchSentSep prev (c :: rest) with
      | none => splitSentAux fuel (some c) (c :: acc) rest
      | some 0 =>
          if acc.isEmpty then splitSentAux fuel (some c) (c :: acc) rest
          else acc.reverse :: splitSentAux fuel (some c) [c] rest
      | some (k + 1) =>
          acc.reverse :: splitSentAux fuel (some (((c :: rest).take (k + 1)).getLastD c)) [] (rest.drop k)

/-- JS `text.split(/(?<=[.?!])\s+(?=…)|(?<=\n)\s*(?=…)/g)`. -/
def splitSentences (l : List Char) : List (List Char) :=
  splitSentAux (l.length + 1) none [] l

/-- The backward scan of the character-window fallback: JS
`for (let i = splitPoint; i > currentPos; i--) if (/\s/.test(text[i])) …`
returns the first (largest) index in `(lo, i]` holding whitespace. -/
def findWsBack (text : List Char) (lo : Nat) : Nat → Option Nat
  | 0 => none
  | i + 1 =>
      if i + 1 ≤ lo then none
      else if isWs (text.getD (i + 1) 'x') then some (i + 1)
      else findWsBack text lo i

/-- One iteration of the fallback loop of `forceSplitTextRecursive_SYNC`:
from cursor `cp`, compute the split point (lines 186–199 of the source).
The arithmetic comparison with `targetCharLength / 2` (a JS float) is
rendered exactly as `2 * (sp0 - cp) < target`. -/
def charWindowStep (text : List Char) (target cp : Nat) : Nat :=
  let sp0 := min (cp + target) text.length
  if sp0 < text.length then
    match findWsBack text cp sp0 with
    | some i => i + 1
    | none =>
        if 2 * (sp0 - cp) < target ∧ cp + target < text.length then cp + target else sp0
  else sp0

/-- The fallback loop itself (lines 184–203).  Each iteration emits the
trimmed window `[cp, sp)` and continues at `sp`.  With a positive target the
cursor strictly advances, so the fuel `text.length` supplied by
`charWindowSplit` suffices; the source loops forever when the target is 0,
where this rendering stops with what it has. -/
def charWindowLoopF (text : List Char) (target : Nat) : Nat → Nat → List (List Char)
  | 0, _ => []
  | fuel + 1, cp =>
      if cp < text.length then
        let sp := charWindowStep text target cp
        let part := trim ((text.drop cp).take (sp - cp))
        (if part.isEmpty then [] else [part]) ++ charWindowLoopF text target fuel sp
      else []

/-- The whole character-based fallback split starting at cursor 0. -/
def charWindowSplit (text : List Char) (target : Nat) : List (List Char) :=
  charWindowLoopF text target text.length 0

/-- `forceSplitTextRecursive_SYNC` with explicit fuel.  Recursion in the
source is on `depth` with the `depth > 15` escape valve; the fuel only
mirrors that bound (17 levels are always enough, see the C3 theorem).  The
`depth > 0` length test `text.length <= targetCharLength * 1.5` is rendered
exactly as `2 * text.length ≤ 3 * targetCharLength`.  Progress callbacks
and call-id strings of the source carry no data and are dropped. -/
def forceSplitF (targetCharLength : Nat) : Nat → List Char → Nat → List (List Char)
  | 0, text, _ => [text]
  | fuel + 1, text, depth =>
      if trim text = [] then []
      else if 15 < depth then [text]
      else if 2 * text.length ≤ 3 * targetCharLength ∧ 0 < depth then [text]
      else
        let paragraphs := splitOnBlankLines text
        if 1 < paragraphs.length then
          (((paragraphs.map trim).filter (fun p => !p.isEmpty)).flatMap
            (fun para => forceSplitF targetCharLength fuel para (depth + 1))).filter
            (fun s => !s.isEmpty)
        else
          let sentences := ((splitSentences text).map trim).filter (fun s => !s.isEmpty)
          if 1 < sentences.length then
            (sentences.flatMap (fun s =>
              let s2 := trim s
              if s2.isEmpty then [] else forceSplitF targetCharLength fuel s2 (depth + 1))).filter
              (fun s => !s.isEmpty)
          else
            let results := charWindowSplit text targetCharLength
            (if results = [] ∧ text ≠ [] then [text] else results).filter (fun s => !s.isEmpty)

/-- `forceSplitTextRecursive_SYNC` of the source.  Fuel 17 covers every
reachable recursion depth (`depth` grows by one per level and the source
returns unsplit once `depth > 15`). -/
def forceSplitTextRecursive_SYNC (text : List Char) (targetCharLength : Nat)
    (depth : Nat := 0) : List (List Char) :=
  forceSplitF targetCharLength 17 text depth

/-- Loop body of `aggregateParagraphsIntoChunks` (lines 230–266 of the
source): `buf` is `currentChunk`.  A paragraph meeting an empty buffer with
`paragraph.length >= charTarget` is emitted alone; otherwise the buffer is
flushed when it is non-empty and adding the paragraph (with its separator)
would push it strictly past `charTarget`. -/
def aggAux (charTarget : Nat) : List Char → List (List Char) → List (List Char)
  | buf, [] => if buf = [] then [] else [buf]
  | buf, p :: ps =>
      if buf = [] ∧ charTarget ≤ p.length then p :: aggAux charTarget [] ps
      else
        let sep : List Char := if buf = [] then [] else str ("\n\n")
        if charTarget < buf.length + sep.length + p.length ∧ buf ≠ [] then
          buf :: aggAux charTarget p ps
        else aggAux charTarget (buf ++ sep ++ p) ps

/-- `aggregateParagraphsIntoChunks` of the source (progress callbacks carry
no data and are dropped). -/
def aggregateParagraphsIntoChunks (paragraphs : List (List Char)) (charTarget : Nat) :
    List (List Char) :=
  aggAux charTarget [] paragraphs

/-- Modelled from the wording of claim C4 (spec §4.2), for comparison with
the source's `aggAux`: the standalone case fires only when the lone
paragraph *strictly exceeds* `charTarget`; the flush rule is word-for-word
"buffer non-empty and appending the next paragraph with its separator would
make its length exceed charTarget". -/
def specAggAux (charTarget : Nat) : List Char → List (List Char) → List (List Char)
  | buf, [] => if buf = [] then [] else [buf]
  | buf, p :: ps =>
      if buf = [] ∧ charTarget < p.length then p :: specAggAux charTarget [] ps
      else
        let sep : List Char := if buf = [] then [] else str ("\n\n")
        if charTarget < buf.length + sep.length + p.length ∧ buf ≠ [] then
          buf :: specAggAux charTarget p ps
        else specAggAux charTarget (buf ++ sep ++ p) ps

/-- The aggregator exactly as the claim words it. -/
def specAggregate (paragraphs : List (List Char)) (charTarget : Nat) : List (List Char) :=
  specAggAux charTarget [] paragraphs

/-- Does the text contain two consecutive newlines (a blank-line separator)? -/
def hasDoubleNl : List Char → Bool
  | '\n' :: '\n' :: _ => true
  | _ :: rest => hasDoubleNl rest
  | [] => false

/-- Join a list of texts with a separator (JS `Array.prototype.join`). -/
def joinWith (sep : List Char) : List (List Char) → List Char
  | [] => []
  | [p] => p
  | p :: ps => p ++ sep ++ joinWith sep ps

/-! Constants of the chunking strategy (lines 5–40 and 300–302 of the
source).  The JS float expressions are exact at these values:
`floor(2000 × 1.5) = 3000` and `floor(6000 / 2) = 3000`. -/

def MAX_TTS_TOKENS : Nat := 8000

def IDEAL_TOKENS_PER_CHUNK : Nat := 2000

def IDEAL_CHARS_PER_CHUNK_TARGET : Nat := 6000

/-- `Math.floor(IDEAL_TOKENS_PER_CHUNK * IDEAL_CHUNK_SIZE_MULTIPLIER)` with
the multiplier 1.5. -/
def IDEAL_CHUNK_TOKEN_UPPER_BOUND : Nat := 3 * IDEAL_TOKENS_PER_CHUNK / 2

def FINE_GRAINED_SPLIT_DIVISOR : Nat := 2

def FINE_GRAINED_RECURSIVE_CHAR_TARGET : Nat :=
  IDEAL_CHARS_PER_CHUNK_TARGET / FINE_GRAINED_SPLIT_DIVISOR

def MAX_RETRIES : Nat := 2

def RETRY_DELAY_MS : Nat := 1000

/-- Lifecycle states of a chunk (from `types.ts` via the spec §3). -/
inductive ChunkStatus
  | pending
  | generating
  | success
  | error
deriving DecidableEq, Inhabited

/-- `AudiobookChunk` as built by `createAudiobookChunks`.  The random `id`
(`crypto.randomUUID()`) identifies but never influences a chunk and is
omitted. -/
structure AudiobookChunk where
  index : Nat
  text : List Char
  chapterTitle : Option (List Char)
  fileName : List Char
  status : ChunkStatus
  tokenCount : Option Nat
  errorDetails : Option (List Char)
deriving DecidableEq, Inhabited

/-- The token-counting oracle (`ai.models.countTokens`): from the number of
oracle calls made so far in the run and the full text submitted, either a
token count or a thrown error (kept as its string rendering). -/
def Oracle : Type := Nat → List Char → Except (List Char) Nat

instance {α β : Type} [DecidableEq α] [DecidableEq β] : DecidableEq (Except α β) := fun a b =>
  match a, b with
  | Except.ok m, Except.ok n =>
      if h : m = n then isTrue (by rw [h]) else isFalse (fun hc => by cases hc; exact h rfl)
  | Except.error e, Except.error f =>
      if h : e = f then isTrue (by rw [h]) else isFalse (fun hc => by cases hc; exact h rfl)
  | Except.ok _, Except.error _ => isFalse (fun hc => by cases hc)
  | Except.error _, Except.ok _ => isFalse (fun hc => by cases hc)

/-- What one `countTokensForText` call produces: the value returned or
error thrown, how many oracle calls it made, and the backoff delays (ms) it
awaited before retries. -/
structure TokenCountOutcome where
  result : Except (List Char) Nat
  callsMade : Nat
  delays : List Nat
deriving DecidableEq

/-- Classification of a thrown error as transient (line 376):
`toString().includes('500') || toString().includes('Internal error')`. -/
def isServerError (e : List Char) : Bool :=
  containsSeq (str ("500")) e || containsSeq (str ("Internal error")) e

/-- The retry loop of `countTokensForText` (lines 357–386): `attempt` is the
0-based attempt number, `remaining = MAX_RETRIES - attempt` the retries
left.  Before every attempt after the first, the source awaits
`RETRY_DELAY_MS * attempt`. -/
def countTokensGo (oracle : Oracle) (fullText : List Char) (ctr : Nat) :
    Nat → Nat → TokenCountOutcome
  | attempt, remaining =>
      let delaysNow : List Nat := if attempt = 0 then [] else [RETRY_DELAY_MS * attempt]
      match oracle (ctr + attempt) fullText with
      | Except.ok n => { result := Except.ok n, callsMade := attempt + 1, delays := delaysNow }
      | Except.error e =>
          match remaining with
          | 0 => { result := Except.error e, callsMade := attempt + 1, delays := delaysNow }
          | r + 1 =>
              if isServerError e then
                let rest := countTokensGo oracle fullText ctr (attempt + 1) r
                { result := rest.result, callsMade := rest.callsMade,
                  delays := delaysNow ++ rest.delays }
              else { result := Except.error e, callsMade := attempt + 1, delays := delaysNow }

/-- `countTokensForText` (lines 352–389): prefix the trimmed voice prompt
when present, then run the retry loop with `MAX_RETRIES`.  `ctr` is the
global count of oracle calls made before this one. -/
def countTokensForText (oracle : Oracle) (ctr : Nat) (voicePrompt textToCount : List Char) :
    TokenCountOutcome :=
  let fullText :=
    if trim voicePrompt = [] then textToCount
    else trim voicePrompt ++ str (": ") ++ textToCount
  countTokensGo oracle fullText ctr 0 MAX_RETRIES

/-- Decimal digit character. -/
def digitChar : Nat → Char
  | 0 => '0' | 1 => '1' | 2 => '2' | 3 => '3' | 4 => '4'
  | 5 => '5' | 6 => '6' | 7 => '7' | 8 => '8' | _ => '9'

/-- Decimal digits of a positive number, most significant first; the fuel
(at least the number itself) bounds the division chain. -/
def natToCharsAux : Nat → Nat → List Char
  | _, 0 => []
  | 0, _ + 1 => []
  | fuel + 1, n + 1 => natToCharsAux fuel ((n + 1) / 10) ++ [digitChar ((n + 1) % 10)]

/-- JS `String(n)` for a natural number. -/
def natToChars (n : Nat) : List Char :=
  if n = 0 then [digitChar 0] else natToCharsAux n n

/-- JS `s.padStart(3, '0')`. -/
def padStart3 (l : List Char) : List Char := List.replicate (3 - l.length) '0' ++ l

/-- The character class kept by the filename sanitizer `[^a-zA-Z0-9_-]`
(everything else becomes `_`). -/
def isFileSafeChar (c : Char) : Bool :=
  (Nat.ble 97 c.toNat && Nat.ble c.toNat 122) ||
  (Nat.ble 65 c.toNat && Nat.ble c.toNat 90) ||
  (Nat.ble 48 c.toNat && Nat.ble c.toNat 57) ||
  c == '_' || c == '-'

/-- Line 349 of the source:
`transliterate(title).replace(/[^a-zA-Z0-9_-]/g, '_').substring(0, 50) || "AudiobookPart"`.
The transliteration table lives outside the extracted sources, so the
pipeline takes `transliterate` as a parameter and the sanitizer applies to
its output. -/
def sanitizeFileNameBase (transliterated : List Char) : List Char :=
  let s := (transliterated.map (fun c => if isFileSafeChar c then c else '_')).take 50
  if s = [] then str ("AudiobookPart") else s

/-- Chunk filename: `{base}_Part_{padded}{suffix}.wav`. -/
def mkFileName (base : List Char) (n : Nat) (suffix : List Char) : List Char :=
  base ++ str ("_Part_") ++ padStart3 (natToChars n) ++ suffix ++ str (".wav")

/-- Replacement text of a chunk whose token counting failed (lines 401, 431). -/
def errTextSnippet (cand : List Char) : List Char :=
  str ("Error: Token counting failed. Snippet: ") ++ cand.take 100 ++ str ("...")

/-- One chapter extracted from a book file (`types.ts`). -/
structure ExtractedChapter where
  title : List Char
  content : List Char

/-- The union argument `ExtractedChapter[] | string[]` of
`createAudiobookChunks`. -/
inductive ChunksInput
  | chapters (l : List ExtractedChapter)
  | texts (l : List (List Char))

/-- Neither branch of the input discrimination applies (lines 309–319). -/
def inputIsEmpty : ChunksInput → Bool
  | ChunksInput.chapters [] => true
  | ChunksInput.texts [] => true
  | _ => false

/-- `fullTextContent` before trimming (lines 309–315): the first chapter's
content, or the pasted texts joined by a blank line. -/
def extractFullText : ChunksInput → List Char
  | ChunksInput.chapters [] => []
  | ChunksInput.chapters (c :: _) => c.content
  | ChunksInput.texts [] => []
  | ChunksInput.texts ls => joinWith (str ("\n\n")) ls

/-- `mainTitleForChunks` (lines 312, 315) with JS falsy-string defaulting. -/
def extractTitle (input : ChunksInput) (bookFileNameBase : List Char) : List Char :=
  match input with
  | ChunksInput.chapters [] => if bookFileNameBase = [] then str ("BookContent") else bookFileNameBase
  | ChunksInput.chapters (c :: _) =>
      if c.title = [] then
        (if bookFileNameBase = [] then str ("BookContent") else bookFileNameBase)
      else c.title
  | ChunksInput.texts _ => if bookFileNameBase = [] then str ("PastedText") else bookFileNameBase

/-- The inner loop over re-split sub-segments of an oversized candidate
(lines 423–453).  State is `(next chunk index, oracle calls made)`; returns
the new state and the chunks emitted, in order. -/
def subChunksLoop (oracle : Oracle) (voicePrompt title base : List Char) :
    Nat → Nat → List (List Char) → (Nat × Nat) × List AudiobookChunk
  | idx, ctr, [] => ((idx, ctr), [])
  | idx, ctr, sub :: subs =>
      if trim sub = [] then subChunksLoop oracle voicePrompt title base idx ctr subs
      else
        let r := countTokensForText oracle ctr voicePrompt sub
        let ctr2 := ctr + r.callsMade
        match r.result with
        | Except.error e =>
            let ch : AudiobookChunk :=
              { index := idx, text := errTextSnippet sub, chapterTitle := some title,
                fileName := mkFileName base (idx + 1) (str ("_SUB_TOKEN_ERR")),
                status := ChunkStatus.error, tokenCount := none,
                errorDetails :=
                  some (str ("Token counting failed for this re-split sub-segment: ") ++ e) }
            let rest := subChunksLoop oracle voicePrompt title base (idx + 1) ctr2 subs
            (rest.1, ch :: rest.2)
        | Except.ok m =>
            let ch : AudiobookChunk :=
              { index := idx, text := sub, chapterTitle := some title,
                fileName :=
                  mkFileName base (idx + 1)
                    (if m ≤ MAX_TTS_TOKENS then [] else str ("_OVERSIZED")),
                status := ChunkStatus.pending, tokenCount := some m, errorDetails := none }
            let rest := subChunksLoop oracle voicePrompt title base (idx + 1) ctr2 subs
            (rest.1, ch :: rest.2)

/-- The candidate-validation loop of `createAudiobookChunks`
(lines 391–455), one candidate at a time in input order. -/
def validateLoop (oracle : Oracle) (voicePrompt title base : List Char) :
    Nat → Nat → List (List Char) → List AudiobookChunk
  | _, _, [] => []
  | idx, ctr, cand :: cands =>
      let r := countTokensForText oracle ctr voicePrompt cand
      let ctr2 := ctr + r.callsMade
      match r.result with
      | Except.error e =>
          { index := idx, text := errTextSnippet cand, chapterTitle := some title,
            fileName := mkFileName base (idx + 1) (str ("_TOKEN_ERR")),
            status := ChunkStatus.error, tokenCount := none,
            errorDetails :=
              some (str ("Token counting failed for this candidate chunk: ") ++ e) } ::
          validateLoop oracle voicePrompt title base (idx + 1) ctr2 cands
      | Except.ok n =>
          if n ≤ IDEAL_CHUNK_TOKEN_UPPER_BOUND then
            { index := idx, text := cand, chapterTitle := some title,
              fileName := mkFileName base (idx + 1) [],
              status := ChunkStatus.pending, tokenCount := some n, errorDetails := none } ::
            validateLoop oracle voicePrompt title base (idx + 1) ctr2 cands
          else
            let subs := forceSplitTextRecursive_SYNC cand FINE_GRAINED_RECURSIVE_CHAR_TARGET 0
            let res := subChunksLoop oracle voicePrompt title base idx ctr2 subs
            res.2 ++ validateLoop oracle voicePrompt title base res.1.1 res.1.2 cands

/-- `createAudiobookChunks` (lines 288–460).  The `ai = null` guard throws
before any work and is outside the model; the oracle stands for the
initialized client. -/
def createAudiobookChunks (oracle : Oracle) (translit : List Char → List Char)
    (input : ChunksInput) (bookFileNameBase voicePrompt : List Char) :
    List AudiobookChunk :=
  if inputIsEmpty input then []
  else
    let fullTextContent := trim (extractFullText input)
    if fullTextContent = [] then []
    else
      let title := extractTitle input bookFileNameBase
      let allParagraphs := splitTextIntoParagraphs fullTextContent
      let candidates := aggregateParagraphsIntoChunks allParagraphs IDEAL_CHARS_PER_CHUNK_TARGET
      if candidates = [] then
        [{ index := 0, text := str ("Error: Could not aggregate paragraphs into chunks."),
           chapterTitle := none,
           fileName := bookFileNameBase ++ str ("_Part_001_AGGREGATE_ERR.wav"),
           status := ChunkStatus.error, tokenCount := none,
           errorDetails :=
             some (str ("Paragraph aggregation yielded no segments from non-empty input.")) }]
      else
        let base := sanitizeFileNameBase (translit title)
        validateLoop oracle voicePrompt title base 0 0 candidates

/-! The WAV encoder (`utils/wavUtils.ts`).  The base64 transport (`atob`)
is a browser built-in; the model starts from the decoded PCM byte list, the
input the silence-trimming logic actually works on. -/

/-- Decode consecutive byte pairs as signed 16-bit little-endian samples
(`DataView.getInt16(2i, true)`); a trailing odd byte yields no sample. -/
def decodeInt16Pairs : List Nat → List Int
  | b0 :: b1 :: rest =>
      (let v := b0 % 256 + 256 * (b1 % 256)
       if 32768 ≤ v then (v : Int) - 65536 else (v : Int)) :: decodeInt16Pairs rest
  | _ => []

/-- Index of the last sample louder than the silence threshold (the source
scans from the end, lines 66–72). -/
def findLastLoud (samples : List Int) : Option Nat :=
  match samples.reverse.findIdx? (fun v => Nat.blt 5 v.natAbs) with
  | some j => some (samples.length - 1 - j)
  | none => none

/-- Trailing-silence trimming (lines 54–84).  `2 * sampleRate` and
`sampleRate / 2` are the exact values of the JS float expressions
`(2000 / 1000) * sampleRate` and `floor((500 / 1000) * sampleRate)`.  The
source computes the sample count as `byteLength / 2` without flooring; on
the even byte lengths of well-formed 16-bit PCM (the only ones the claims
touch) the two agree. -/
def trimTrailingSilence (pcm : List Nat) (sampleRate bitDepth : Nat) : List Nat :=
  if bitDepth = 16 ∧ pcm ≠ [] then
    let samples := decodeInt16Pairs pcm
    let minSilenceSamples := 2 * sampleRate
    match findLastLoud samples with
    | none => pcm
    | some i =>
        if minSilenceSamples < samples.length - i then
          let paddingSamples := sampleRate / 2
          let newSampleCount := min samples.length (i + paddingSamples)
          pcm.take (2 * newSampleCount)
        else pcm
  else pcm

/-- The data section of the emitted WAV: trailing-silence trimming followed
by truncation to a whole number of frames (lines 86–98).  A zero
`blockAlign` cannot arise from the parameter parser's outputs; the guard
keeps the definition total. -/
def createWavDataBytes (pcm : List Nat) (sampleRate channels bitDepth : Nat) : List Nat :=
  let trimmed := trimTrailingSilence pcm sampleRate bitDepth
  let blockAlign := channels * (bitDepth / 8)
  if blockAlign = 0 then trimmed
  else if trimmed.length % blockAlign = 0 then trimmed
  else trimmed.take (trimmed.length / blockAlign * blockAlign)

/-- Two bytes, little-endian (`DataView.setUint16(…, true)`). -/
def u16le (n : Nat) : List Nat := [n % 256, n / 256 % 256]

/-- Four bytes, little-endian (`DataView.setUint32(…, true)`). -/
def u32le (n : Nat) : List Nat := [n % 256, n / 256 % 256, n / 65536 % 256, n / 16777216 % 256]

/-- The full WAV byte stream `createWavBlobFromPcm` emits (lines 104–133):
the fixed 44-byte RIFF/fmt/data header followed by the processed data
bytes.  An empty decoded input returns the empty blob of line 34. -/
def createWavBlobFromPcm (pcm : List Nat) (sampleRate : Nat) (channels : Nat := 1)
    (bitDepth : Nat := 16) : List Nat :=
  if pcm = [] then []
  else
    let data := createWavDataBytes pcm sampleRate channels bitDepth
    let dataSize := data.length
    let blockAlign := channels * (bitDepth / 8)
    let byteRate := sampleRate * blockAlign
    (str ("RIFF")).map Char.toNat ++ u32le (44 + dataSize - 8) ++
    (str ("WAVE")).map Char.toNat ++
    (str ("fmt ")).map Char.toNat ++ u32le 16 ++ u16le 1 ++ u16le channels ++
    u32le sampleRate ++ u32le byteRate ++ u16le blockAlign ++ u16le bitDepth ++
    (str ("data")).map Char.toNat ++ u32le dataSize ++ data

/-! Concrete scenario data used to settle the claims on explicit runs. -/

/-- An oracle that always fails with a non-transient error. -/
def c1FailOracle : Oracle := fun _ _ => Except.error (str ("boom"))

/-- An oracle that always succeeds with a small count. -/
def c1OkOracle : Oracle := fun _ _ => Except.ok 7

/-- An oracle that always answers 3500 tokens: above the ideal bound, below
the hard TTS ceiling. -/
def c2Oracle : Oracle := fun _ _ => Except.ok 3500

/-- An oracle that always succeeds with a small count. -/
def c2WitnessOracle : Oracle := fun _ _ => Except.ok 100

/-- An oracle whose first two calls fail with a server-classified error and
whose third call succeeds. -/
def c7SrvOracle : Oracle :=
  fun i _ => if i ≤ 1 then Except.error (str ("got 500")) else Except.ok 42

/-- An oracle that always fails with an error not classified as transient. -/
def c7BadOracle : Oracle := fun _ _ => Except.error (str ("Bad request"))

/-- An oracle that always fails with a server-classified error, exhausting
every retry. -/
def c7ExhaustOracle : Oracle := fun _ _ => Except.error (str ("http 500"))

/-- An oracle that always succeeds with a small count. -/
def c8Oracle : Oracle := fun _ _ => Except.ok 9

/-- An oracle that always succeeds with a small count. -/
def c1WitnessOracle : Oracle := fun _ _ => Except.ok 11

/-- 16-bit little-endian PCM of the C5 scenario: 120,000 samples of value
1000 (five seconds of signal at 24 kHz) followed by 72,000 zero samples
(three seconds of silence). -/
def c5Pcm : List Nat :=
  (List.replicate 120000 [232, 3] ++ List.replicate 72000 [0, 0]).flatten

/-! Basic facts about whitespace stripping and trimming. -/

theorem stripWs_nil : stripWs [] = [] := rfl

theorem stripWs_append (a b : List Char) : stripWs (a ++ b) = stripWs a ++ stripWs b :=
  List.filter_append a b

theorem stripWs_cons (c : Char) (l : List Char) :
    stripWs (c :: l) = if isWs c then stripWs l else c :: stripWs l := by
  by_cases h : isWs c <;> simp [stripWs, List.filter_cons, h]

theorem stripWs_dropWhile (l : List Char) : stripWs (l.dropWhile isWs) = stripWs l := by
  induction l with
  | nil => rfl
  | cons c rest ih =>
      by_cases h : isWs c <;> simp [List.dropWhile_cons, h, ih, stripWs_cons]

theorem stripWs_reverse (l : List Char) : stripWs l.reverse = (stripWs l).reverse :=
  List.filter_reverse _ l

theorem stripWs_trim (l : List Char) : stripWs (trim l) = stripWs l := by
  unfold trim
  rw [stripWs_reverse, stripWs_dropWhile, stripWs_reverse, List.reverse_reverse,
    stripWs_dropWhile]

theorem stripWs_eq_nil_iff (l : List Char) : stripWs l = [] ↔ ∀ c ∈ l, isWs c := by
  unfold stripWs
  rw [List.filter_eq_nil_iff]
  constructor
  · intro h c hc
    have := h c hc
    simpa using this
  · intro h c hc
    simpa using h c hc

theorem dropWhile_isWs_eq_nil (l : List Char) (h : ∀ c ∈ l, isWs c) :
    l.dropWhile isWs = [] := by
  induction l with
  | nil => rfl
  | cons c rest ih =>
      rw [List.dropWhile_cons]
      simp only [h c (by simp)]
      exact ih (fun d hd => h d (by simp [hd]))

theorem trim_eq_nil_of_stripWs (l : List Char) (h : stripWs l = []) : trim l = [] := by
  have hall : ∀ c ∈ l, isWs c := (stripWs_eq_nil_iff l).mp h
  simp [trim, dropWhile_isWs_eq_nil l hall]

theorem stripWs_eq_nil_of_trim (l : List Char) (h : trim l = []) : stripWs l = [] := by
  have := stripWs_trim l
  rw [h] at this
  exact this.symm

theorem trim_eq_self_of_no_ws (l : List Char) (h : ∀ c ∈ l, isWs c = false) : trim l = l := by
  have hdw : ∀ (m : List Char), (∀ c ∈ m, isWs c = false) → m.dropWhile isWs = m := by
    intro m hm
    cases m with
    | nil => rfl
    | cons c rest => simp [List.dropWhile_cons, hm c (by simp)]
  unfold trim
  rw [hdw l h, hdw l.reverse (fun c hc => h c (by simpa using hc)), List.reverse_reverse]

theorem stripWs_eq_self_of_no_ws (l : List Char) (h : ∀ c ∈ l, isWs c = false) :
    stripWs l = l :=
  List.filter_eq_self.mpr (fun c hc => by simp [h c hc])

/-- Dropping the empty lists of a list of lists leaves its flattening alone. -/
theorem flatten_filter_nonempty (L : List (List Char)) :
    (L.filter (fun p => !p.isEmpty)).flatten = L.flatten := by
  induction L with
  | nil => rfl
  | cons p rest ih =>
      cases p with
      | nil => simpa [List.filter] using ih
      | cons c q => simp [List.filter, ih]

/-! Content preservation of the blank-line splitter. -/

theorem splitBLAux_strip (l : List Char) : ∀ (acc : List Char) (nl : Nat),
    stripWs (splitBLAux acc nl l).flatten = stripWs acc.reverse ++ stripWs l := by
  induction l with
  | nil =>
      intro acc nl
      by_cases h : 2 ≤ nl <;>
        simp [splitBLAux, h, stripWs_append, stripWs,
          List.filter_replicate, show isWs '\n' = true by decide]
  | cons c rest ih =>
      intro acc nl
      by_cases hc : c = '\n'
      · subst hc
        rw [show splitBLAux acc nl ('\n' :: rest) = splitBLAux acc (nl + 1) rest from rfl, ih]
        simp [stripWs, List.filter, show isWs '\n' = true by decide]
      · by_cases hnl : 2 ≤ nl
        · rw [show splitBLAux acc nl (c :: rest) = acc.reverse :: splitBLAux [c] 0 rest by
            simp [splitBLAux, hc, hnl]]
          simp only [List.flatten_cons, stripWs_append, ih]
          by_cases hw : isWs c <;> simp [stripWs_cons, hw, stripWs]
        · rw [show splitBLAux acc nl (c :: rest)
              = splitBLAux (c :: (List.replicate nl '\n' ++ acc)) 0 rest by
            simp [splitBLAux, hc, hnl], ih]
          by_cases hw : isWs c <;>
            simp [stripWs_append, stripWs_cons, hw, stripWs, List.filter_replicate,
              show isWs '\n' = true by decide, List.filter_reverse]

theorem splitOnBlankLines_strip (l : List Char) :
    stripWs (splitOnBlankLines l).flatten = stripWs l := by
  simpa [stripWs] using splitBLAux_strip l [] 0

theorem flatten_map_trim_strip (L : List (List Char)) :
    stripWs (L.map trim).flatten = stripWs L.flatten := by
  induction L with
  | nil => rfl
  | cons p rest ih => simp [stripWs_append, stripWs_trim, ih]

theorem splitTextIntoParagraphs_strip (l : List Char) :
    stripWs (splitTextIntoParagraphs l).flatten = stripWs l := by
  unfold splitTextIntoParagraphs
  rw [flatten_filter_nonempty, flatten_map_trim_strip, splitOnBlankLines_strip]

theorem splitBLAux_no_nl (l : List Char) : ∀ (acc : List Char),
    (∀ c ∈ l, ¬ c = '\n') → splitBLAux acc 0 l = [acc.reverse ++ l] := by
  induction l with
  | nil => intro acc _; simp [splitBLAux]
  | cons c rest ih =>
      intro acc h
      have hc : ¬ c = '\n' := h c (by simp)
      rw [show splitBLAux acc 0 (c :: rest) = splitBLAux (c :: acc) 0 rest by
        simp [splitBLAux, hc]]
      rw [ih (c :: acc) (fun d hd => h d (by simp [hd]))]
      simp

theorem splitOnBlankLines_no_nl (l : List Char) (h : ∀ c ∈ l, ¬ c = '\n') :
    splitOnBlankLines l = [l] := by
  simpa using splitBLAux_no_nl l [] h

/-! Content preservation of the sentence splitter. -/

theorem drop_wsRunLen (l : List Char) : l.drop (wsRunLen l) = l.dropWhile isWs := by
  have h := List.takeWhile_append_dropWhile (p := isWs) (l := l)
  calc l.drop (wsRunLen l)
      = (l.takeWhile isWs ++ l.dropWhile isWs).drop ((l.takeWhile isWs).length) := by
        rw [h]; rfl
    _ = l.dropWhile isWs := List.drop_left _ _

theorem matchSentSep_eq_wsRun (prev : Char) (l : List Char) (k : Nat)
    (h : matchSentSep prev l = some k) : k = wsRunLen l := by
  simp only [matchSentSep] at h
  split_ifs at h <;> (cases h; rfl)

theorem splitSentAux_strip : ∀ (fuel : Nat) (prev : Option Char) (acc l : List Char),
    stripWs (splitSentAux fuel prev acc l).flatten = stripWs acc.reverse ++ stripWs l := by
  intro fuel
  induction fuel with
  | zero =>
      intro prev acc l
      cases l <;> simp [splitSentAux, stripWs_append, stripWs]
  | succ fuel ih =>
      intro prev acc l
      cases l with
      | nil => simp [splitSentAux, stripWs]
      | cons c rest =>
          cases prev with
          | none =>
              rw [show splitSentAux (fuel + 1) none acc (c :: rest)
                  = splitSentAux fuel (some c) (c :: acc) rest from rfl, ih]
              by_cases hw : isWs c <;>
                simp [stripWs_cons, hw, stripWs_append, stripWs, List.append_assoc]
          | some prev =>
              rcases hm : matchSentSep prev (c :: rest) with _ | k
              · rw [show splitSentAux (fuel + 1) (some prev) acc (c :: rest)
                    = splitSentAux fuel (some c) (c :: acc) rest by
                  simp [splitSentAux, hm], ih]
                by_cases hw : isWs c <;>
                  simp [stripWs_cons, hw, stripWs_append, stripWs, List.append_assoc]
              · cases k with
                | zero =>
                    by_cases ha : acc.isEmpty
                    · rw [show splitSentAux (fuel + 1) (some prev) acc (c :: rest)
                          = splitSentAux fuel (some c) (c :: acc) rest by
                        simp [splitSentAux, hm, ha], ih]
                      by_cases hw : isWs c <;>
                        simp [stripWs_cons, hw, stripWs_append, stripWs, List.append_assoc]
                    · rw [show splitSentAux (fuel + 1) (some prev) acc (c :: rest)
                          = acc.reverse :: splitSentAux fuel (some c) [c] rest by
                        simp [splitSentAux, hm, ha]]
                      rw [List.flatten_cons, stripWs_append, ih]
                      by_cases hw : isWs c <;>
                        simp [stripWs_cons, hw, stripWs_append, stripWs, List.append_assoc]
                | succ k =>
                    rw [show splitSentAux (fuel + 1) (some prev) acc (c :: rest)
                        = acc.reverse ::
                            splitSentAux fuel (some (((c :: rest).take (k + 1)).getLastD c))
                              [] (rest.drop k) by
                      simp [splitSentAux, hm]]
                    rw [List.flatten_cons, stripWs_append, ih]
                    have hk : k + 1 = wsRunLen (c :: rest) := matchSentSep_eq_wsRun _ _ _ hm
                    have hdrop : rest.drop k = (c :: rest).drop (k + 1) := by
                      rw [List.drop_succ_cons]
                    rw [hdrop, hk, drop_wsRunLen, stripWs_dropWhile]
                    simp [stripWs]

theorem splitSentences_strip (l : List Char) :
    stripWs (splitSentences l).flatten = stripWs l := by
  simpa [stripWs] using splitSentAux_strip (l.length + 1) none [] l

theorem matchSentSep_none (prev : Char) (l : List Char)
    (h1 : isSentEnd prev = false) (h2 : ¬ prev = '\n') : matchSentSep prev l = none := by
  unfold matchSentSep
  simp [h1, h2]

theorem splitSentAux_no_match : ∀ (fuel : Nat) (prev : Char) (acc l : List Char),
    isSentEnd prev = false → ¬ prev = '\n' →
    (∀ c ∈ l, isSentEnd c = false ∧ ¬ c = '\n') →
    splitSentAux fuel (some prev) acc l = [acc.reverse ++ l] := by
  intro fuel
  induction fuel with
  | zero => intro prev acc l _ _ _; cases l <;> simp [splitSentAux]
  | succ fuel ih =>
      intro prev acc l h1 h2 hl
      cases l with
      | nil => simp [splitSentAux]
      | cons c rest =>
          rw [show splitSentAux (fuel + 1) (some prev) acc (c :: rest)
              = splitSentAux fuel (some c) (c :: acc) rest by
            simp [splitSentAux, matchSentSep_none prev (c :: rest) h1 h2]]
          rw [ih c (c :: acc) rest (hl c (by simp)).1 (hl c (by simp)).2
            (fun d hd => hl d (by simp [hd]))]
          simp

theorem splitSentences_no_match (l : List Char)
    (h : ∀ c ∈ l, isSentEnd c = false ∧ ¬ c = '\n') : splitSentences l = [l] := by
  cases l with
  | nil => rfl
  | cons c rest =>
      rw [show splitSentences (c :: rest)
          = splitSentAux (rest.length + 1) (some c) [c] rest by
        simp [splitSentences]; rfl]
      rw [splitSentAux_no_match (rest.length + 1) c [c] rest (h c (by simp)).1
        (h c (by simp)).2 (fun d hd => h d (by simp [hd]))]
      simp

/-! The character-window fallback: progress and content preservation. -/

theorem findWsBack_some (text : List Char) (lo : Nat) :
    ∀ (i j : Nat), findWsBack text lo i = some j → lo < j ∧ j ≤ i := by
  intro i
  induction i with
  | zero => intro j h; simp [findWsBack] at h
  | succ i ih =>
      intro j h
      unfold findWsBack at h
      by_cases h1 : i + 1 ≤ lo
      · rw [if_pos h1] at h; cases h
      · rw [if_neg h1] at h
        by_cases h2 : isWs (text.getD (i + 1) 'x')
        · rw [if_pos h2] at h
          injection h with hj
          omega
        · rw [if_neg h2] at h
          obtain ⟨a, b⟩ := ih j h
          omega

theorem findWsBack_no_ws (text : List Char) (h : ∀ c ∈ text, isWs c = false) (lo : Nat) :
    ∀ i, findWsBack text lo i = none := by
  intro i
  induction i with
  | zero => rfl
  | succ i ih =>
      unfold findWsBack
      have hx : isWs (text.getD (i + 1) 'x') = false := by
        by_cases hi : i + 1 < text.length
        · rw [List.getD_eq_getElem text 'x' hi]
          exact h _ (List.getElem_mem hi)
        · rw [List.getD_eq_default text 'x' (by omega)]
          decide
      split_ifs with h1 h2
      · rfl
      · rw [hx] at h2; cases h2
      · exact ih

theorem charWindowStep_progress (text : List Char) (target cp : Nat)
    (ht : 0 < target) (hcp : cp < text.length) :
    cp < charWindowStep text target cp ∧ charWindowStep text target cp ≤ text.length := by
  have hmin1 : min (cp + target) text.length ≤ text.length := Nat.min_le_right _ _
  have hmin2 : min (cp + target) text.length ≤ cp + target := Nat.min_le_left _ _
  have hmin3 : cp + 1 ≤ min (cp + target) text.length := le_min (by omega) (by omega)
  unfold charWindowStep
  by_cases h1 : min (cp + target) text.length < text.length
  · rw [if_pos h1]
    rcases hw : findWsBack text cp (min (cp + target) text.length) with _ | j
    · simp only [hw]
      split_ifs with h2
      · omega
      · omega
    · simp only [hw]
      obtain ⟨ha, hb⟩ := findWsBack_some text cp _ j hw
      omega
  · rw [if_neg h1]
    omega

theorem charWindowLoopF_strip (text : List Char) (target : Nat) (ht : 0 < target) :
    ∀ (fuel cp : Nat), text.length - cp ≤ fuel →
    stripWs (charWindowLoopF text target fuel cp).flatten = stripWs (text.drop cp) := by
  intro fuel
  induction fuel with
  | zero =>
      intro cp h
      simp [charWindowLoopF, List.drop_eq_nil_of_le (by omega : text.length ≤ cp), stripWs]
  | succ fuel ih =>
      intro cp h
      by_cases hcp : cp < text.length
      · obtain ⟨hgt, hle⟩ := charWindowStep_progress text target cp ht hcp
        rw [show charWindowLoopF text target (fuel + 1) cp
            = (if (trim ((text.drop cp).take (charWindowStep text target cp - cp))).isEmpty
                 then []
                 else [trim ((text.drop cp).take (charWindowStep text target cp - cp))]) ++
              charWindowLoopF text target fuel (charWindowStep text target cp) by
          simp [charWindowLoopF, hcp]]
        rw [List.flatten_append, stripWs_append, ih (charWindowStep text target cp) (by omega)]
        have hsplit : stripWs (text.drop cp)
            = stripWs ((text.drop cp).take (charWindowStep text target cp - cp))
              ++ stripWs (text.drop (charWindowStep text target cp)) := by
          conv_lhs => rw [← List.take_append_drop (charWindowStep text target cp - cp)
            (text.drop cp)]
          rw [stripWs_append, List.drop_drop,
            show cp + (charWindowStep text target cp - cp) = charWindowStep text target cp by
              omega]
        rw [hsplit]
        by_cases hpart : (trim ((text.drop cp).take (charWindowStep text target cp - cp))).isEmpty
        · have hz := stripWs_eq_nil_of_trim _ (by simpa using hpart)
          simp [hpart, hz, stripWs_nil]
        · simp [hpart, stripWs_append, stripWs_trim]
      · simp [charWindowLoopF, hcp, List.drop_eq_nil_of_le (by omega : text.length ≤ cp),
          stripWs]

theorem charWindowSplit_strip (text : List Char) (target : Nat) (ht : 0 < target) :
    stripWs (charWindowSplit text target).flatten = stripWs text := by
  have := charWindowLoopF_strip text target ht text.length 0 (by omega)
  simpa [charWindowSplit] using this

/-! Content preservation, nonemptiness and fuel-stability of the recursive
splitter. -/

theorem flatMap_strip_of (f : List Char → List (List Char)) (L : List (List Char))
    (h : ∀ p ∈ L, stripWs (f p).flatten = stripWs p) :
    stripWs (L.flatMap f).flatten = stripWs L.flatten := by
  induction L with
  | nil => rfl
  | cons p rest ih =>
      rw [List.flatMap_cons, List.flatten_append, stripWs_append, h p (by simp),
        List.flatten_cons, stripWs_append, ih (fun q hq => h q (by simp [hq]))]

theorem flatMap_congr_on (f g : List Char → List (List Char)) (L : List (List Char))
    (h : ∀ p ∈ L, f p = g p) : L.flatMap f = L.flatMap g := by
  induction L with
  | nil => rfl
  | cons p rest ih =>
      rw [List.flatMap_cons, List.flatMap_cons, h p (by simp),
        ih (fun q hq => h q (by simp [hq]))]

theorem forceSplitF_strip (target : Nat) (ht : 0 < target) :
    ∀ (fuel : Nat) (text : List Char) (depth : Nat),
    stripWs (forceSplitF target fuel text depth).flatten = stripWs text := by
  intro fuel
  induction fuel with
  | zero => intro text depth; simp [forceSplitF]
  | succ fuel ih =>
      intro text depth
      by_cases h1 : trim text = []
      · rw [show forceSplitF target (fuel + 1) text depth = [] by simp [forceSplitF, h1]]
        simp [stripWs_nil, stripWs_eq_nil_of_trim text h1]
      by_cases h2 : 15 < depth
      · rw [show forceSplitF target (fuel + 1) text depth = [text] by
          simp [forceSplitF, h1, h2]]
        simp
      by_cases h3 : 2 * text.length ≤ 3 * target ∧ 0 < depth
      · rw [show forceSplitF target (fuel + 1) text depth = [text] by
          simp [forceSplitF, h1, h2, h3]]
        simp
      by_cases h4 : 1 < (splitOnBlankLines text).length
      · rw [show forceSplitF target (fuel + 1) text depth
            = ((((splitOnBlankLines text).map trim).filter (fun p => !p.isEmpty)).flatMap
                (fun para => forceSplitF target fuel para (depth + 1))).filter
                (fun s => !s.isEmpty) by
          simp [forceSplitF, h1, h2, h3, h4]]
        rw [flatten_filter_nonempty,
          flatMap_strip_of _ _ (fun p _ => ih p (depth + 1)),
          flatten_filter_nonempty, flatten_map_trim_strip, splitOnBlankLines_strip]
      by_cases h5 : 1 < ((((splitSentences text).map trim).filter (fun s => !s.isEmpty)).length)
      · rw [show forceSplitF target (fuel + 1) text depth
            = ((((splitSentences text).map trim).filter (fun s => !s.isEmpty)).flatMap
                (fun s =>
                  if (trim s).isEmpty then []
                  else forceSplitF target fuel (trim s) (depth + 1))).filter
                (fun s => !s.isEmpty) by
          simp [forceSplitF, h1, h2, h3, h4, h5]]
        rw [flatten_filter_nonempty,
          flatMap_strip_of _ _ (fun p _ => by
            by_cases hp : (trim p).isEmpty
            · have : stripWs p = [] := stripWs_eq_nil_of_trim p (by simpa using hp)
              simp [hp, this, stripWs_nil]
            · rw [if_neg hp, ih (trim p) (depth + 1), stripWs_trim]),
          flatten_filter_nonempty, flatten_map_trim_strip, splitSentences_strip]
      · by_cases h6 : charWindowSplit text target = [] ∧ text ≠ []
        · rw [show forceSplitF target (fuel + 1) text depth = [text].filter (fun s => !s.isEmpty) by
            simp [forceSplitF, h1, h2, h3, h4, h5, h6]]
          have : (!text.isEmpty) = true := by
            cases text with
            | nil => exact absurd rfl h6.2
            | cons c rest => rfl
          simp [List.filter, this]
        · rw [show forceSplitF target (fuel + 1) text depth
              = (charWindowSplit text target).filter (fun s => !s.isEmpty) by
            simp [forceSplitF, h1, h2, h3, h4, h5, h6]]
          rw [flatten_filter_nonempty, charWindowSplit_strip text target ht]

theorem forceSplitF_ne_nil (target : Nat) (ht : 0 < target) (fuel : Nat) (text : List Char)
    (depth : Nat) (h : stripWs text ≠ []) : forceSplitF target fuel text depth ≠ [] := by
  intro hc
  apply h
  have := forceSplitF_strip target ht fuel text depth
  rw [hc] at this
  exact this.symm

theorem forceSplitF_stable (target : Nat) : ∀ (f1 f2 : Nat) (text : List Char) (depth : Nat),
    1 ≤ f1 → 17 ≤ f1 + depth → 1 ≤ f2 → 17 ≤ f2 + depth →
    forceSplitF target f1 text depth = forceSplitF target f2 text depth := by
  intro f1
  induction f1 with
  | zero => intro f2 text depth h1 _ _ _; omega
  | succ f1 ih =>
      intro f2 text depth h1 h2 h3 h4
      cases f2 with
      | zero => omega
      | succ f2 =>
          by_cases ha : trim text = []
          · simp [forceSplitF, ha]
          by_cases hb : 15 < depth
          · simp [forceSplitF, ha, hb]
          by_cases hc : 2 * text.length ≤ 3 * target ∧ 0 < depth
          · simp [forceSplitF, ha, hb, hc]
          have hrec : ∀ (p : List Char), forceSplitF target f1 p (depth + 1)
              = forceSplitF target f2 p (depth + 1) := by
            intro p
            exact ih f2 p (depth + 1) (by omega) (by omega) (by omega) (by omega)
          by_cases hd : 1 < (splitOnBlankLines text).length
          · rw [show forceSplitF target (f1 + 1) text depth
                = ((((splitOnBlankLines text).map trim).filter (fun p => !p.isEmpty)).flatMap
                    (fun para => forceSplitF target f1 para (depth + 1))).filter
                    (fun s => !s.isEmpty) by
              simp [forceSplitF, ha, hb, hc, hd]]
            rw [show forceSplitF target (f2 + 1) text depth
                = ((((splitOnBlankLines text).map trim).filter (fun p => !p.isEmpty)).flatMap
                    (fun para => forceSplitF target f2 para (depth + 1))).filter
                    (fun s => !s.isEmpty) by
              simp [forceSplitF, ha, hb, hc, hd]]
            rw [flatMap_congr_on _ _ _ (fun p _ => hrec p)]
          by_cases he : 1 < ((((splitSentences text).map trim).filter (fun s => !s.isEmpty)).length)
          · rw [show forceSplitF target (f1 + 1) text depth
                = ((((splitSentences text).map trim).filter (fun s => !s.isEmpty)).flatMap
                    (fun s =>
                      if (trim s).isEmpty then []
                      else forceSplitF target f1 (trim s) (depth + 1))).filter
                    (fun s => !s.isEmpty) by
              simp [forceSplitF, ha, hb, hc, hd, he]]
            rw [show forceSplitF target (f2 + 1) text depth
                = ((((splitSentences text).map trim).filter (fun s => !s.isEmpty)).flatMap
                    (fun s =>
                      if (trim s).isEmpty then []
                      else forceSplitF target f2 (trim s) (depth + 1))).filter
                    (fun s => !s.isEmpty) by
              simp [forceSplitF, ha, hb, hc, hd, he]]
            rw [flatMap_congr_on
              (fun s => if (trim s).isEmpty then [] else forceSplitF target f1 (trim s) (depth + 1))
              (fun s => if (trim s).isEmpty then [] else forceSplitF target f2 (trim s) (depth + 1))
              _ (fun p _ => by
                by_cases hp : (trim p).isEmpty
                · simp [hp]
                · simp [hp, hrec (trim p)])]
          · simp [forceSplitF, ha, hb, hc, hd, he]

/-! The character-window split on whitespace-free text: one full window per
step, `ceil(length / target)` fragments in total. -/

theorem charWindowStep_no_ws (text : List Char) (target cp : Nat) (ht : 0 < target)
    (hcp : cp < text.length) (hws : ∀ c ∈ text, isWs c = false) :
    charWindowStep text target cp = min (cp + target) text.length := by
  have hmin2 : min (cp + target) text.length ≤ cp + target := Nat.min_le_left _ _
  have hmin3 : cp + 1 ≤ min (cp + target) text.length := le_min (by omega) (by omega)
  unfold charWindowStep
  by_cases h1 : min (cp + target) text.length < text.length
  · rw [if_pos h1]
    rw [findWsBack_no_ws text hws cp (min (cp + target) text.length)]
    have hmin : min (cp + target) text.length = cp + target := by omega
    simp only [hmin]
    rw [if_neg (by omega)]
  · rw [if_neg h1]

theorem charWindowLoopF_count (text : List Char) (target : Nat) (ht : 0 < target)
    (hws : ∀ c ∈ text, isWs c = false) :
    ∀ (fuel cp : Nat), text.length - cp ≤ fuel →
    (charWindowLoopF text target fuel cp).length = (text.length - cp + target - 1) / target ∧
    ∀ p ∈ charWindowLoopF text target fuel cp, p.length ≤ target ∧ p ≠ [] := by
  intro fuel
  induction fuel with
  | zero =>
      intro cp h
      constructor
      · simp [charWindowLoopF]
        rw [show text.length - cp = 0 by omega]
        exact (Nat.div_eq_of_lt (by omega)).symm
      · intro p hp
        simp [charWindowLoopF] at hp
  | succ fuel ih =>
      intro cp h
      by_cases hcp : cp < text.length
      · have hstep := charWindowStep_no_ws text target cp ht hcp hws
        have hmin2 : min (cp + target) text.length ≤ cp + target := Nat.min_le_left _ _
        have hmin1 : min (cp + target) text.length ≤ text.length := Nat.min_le_right _ _
        have hmin3 : cp + 1 ≤ min (cp + target) text.length := le_min (by omega) (by omega)
        have hslice : (text.drop cp).take (charWindowStep text target cp - cp)
            = (text.drop cp).take (min (cp + target) text.length - cp) := by rw [hstep]
        have hlen : ((text.drop cp).take (min (cp + target) text.length - cp)).length
            = min (cp + target) text.length - cp := by
          rw [List.length_take, List.length_drop]
          omega
        have hnws : ∀ c ∈ (text.drop cp).take (min (cp + target) text.length - cp),
            isWs c = false :=
          fun c hc => hws c (List.mem_of_mem_drop (List.mem_of_mem_take hc))
        have htrim : trim ((text.drop cp).take (min (cp + target) text.length - cp))
            = (text.drop cp).take (min (cp + target) text.length - cp) :=
          trim_eq_self_of_no_ws _ hnws
        have hne : (text.drop cp).take (min (cp + target) text.length - cp) ≠ [] := by
          intro hc
          rw [hc] at hlen
          simp at hlen
          omega
        rw [show charWindowLoopF text target (fuel + 1) cp
            = (trim ((text.drop cp).take (charWindowStep text target cp - cp))) ::
              charWindowLoopF text target fuel (charWindowStep text target cp) by
          have hinner : (trim ((text.drop cp).take (charWindowStep text target cp - cp))).isEmpty
              = false := by
            rw [hslice, htrim]
            exact List.isEmpty_eq_false_iff_exists_mem.mpr
              (by cases hq : (text.drop cp).take (min (cp + target) text.length - cp) with
                | nil => exact absurd hq hne
                | cons c q => exact ⟨c, by simp [hq]⟩)
          simp [charWindowLoopF, hcp, hinner]]
        obtain ⟨ihlen, ihmem⟩ := ih (charWindowStep text target cp) (by rw [hstep]; omega)
        constructor
        · rw [List.length_cons, ihlen, hstep]
          by_cases hfar : cp + target < text.length
          · have hmin : min (cp + target) text.length = cp + target := by omega
            rw [hmin]
            have harith : text.length - cp + target - 1
                = (text.length - (cp + target) + target - 1) + target := by omega
            rw [harith, Nat.add_div_right _ ht]
          · have hmin : min (cp + target) text.length = text.length := by omega
            rw [hmin]
            rw [show text.length - text.length = 0 by omega]
            rw [show (0 + target - 1) / target = 0 from Nat.div_eq_of_lt (by omega)]
            exact (Nat.div_eq_of_lt_le (by omega) (by omega)).symm
        · intro p hp
          rcases List.mem_cons.mp hp with hp1 | hp2
          · subst hp1
            rw [hslice, htrim]
            constructor
            · rw [hlen]; omega
            · exact hne
          · exact ihmem p hp2
      · constructor
        · simp [charWindowLoopF, hcp]
          rw [show text.length - cp = 0 by omega]
          exact (Nat.div_eq_of_lt (by omega)).symm
        · intro p hp
          simp [charWindowLoopF, hcp] at hp

/-! The aggregator: equivalence with the claim's wording, content
preservation, nonemptiness. -/

theorem specAggAux_oversized (t : Nat) (ht : 0 < t) :
    ∀ (ps : List (List Char)) (buf : List Char), t ≤ buf.length →
    specAggAux t buf ps = buf :: specAggAux t [] ps := by
  intro ps
  induction ps with
  | nil =>
      intro buf hbuf
      have hbne : buf ≠ [] := by
        intro hc; subst hc; simp at hbuf; omega
      simp [specAggAux, hbne]
  | cons p ps ih =>
      intro buf hbuf
      have hbne : buf ≠ [] := by
        intro hc; subst hc; simp at hbuf; omega
      rw [show specAggAux t buf (p :: ps) = buf :: specAggAux t p ps by
        simp [specAggAux, hbne, show (str ("\n\n")).length = 2 from rfl]
        omega]
      by_cases hp : t < p.length
      · rw [show specAggAux t [] (p :: ps) = p :: specAggAux t [] ps by
          simp [specAggAux, hp]]
        rw [ih p (by omega)]
      · rw [show specAggAux t [] (p :: ps) = specAggAux t p ps by
          simp [specAggAux, hp]]

/-- Claim C4's description and the source's aggregator agree on every
paragraph list, for every positive character target: the only textual
difference (`>=` against `>` in the standalone test) is unobservable. -/
theorem aggAux_eq_specAggAux (t : Nat) (ht : 0 < t) :
    ∀ (ps : List (List Char)) (buf : List Char), aggAux t buf ps = specAggAux t buf ps := by
  intro ps
  induction ps with
  | nil => intro buf; rfl
  | cons p ps ih =>
      intro buf
      by_cases hbuf : buf = []
      · subst hbuf
        by_cases hp : t ≤ p.length
        · rw [show aggAux t [] (p :: ps) = p :: aggAux t [] ps by simp [aggAux, hp]]
          rw [ih []]
          by_cases hps : t < p.length
          · rw [show specAggAux t [] (p :: ps) = p :: specAggAux t [] ps by
              simp [specAggAux, hps]]
          · rw [show specAggAux t [] (p :: ps) = specAggAux t p ps by
              simp [specAggAux, hps]]
            rw [specAggAux_oversized t ht ps p (by omega)]
        · rw [show aggAux t [] (p :: ps) = aggAux t p ps by
            simp [aggAux, hp]]
          rw [show specAggAux t [] (p :: ps) = specAggAux t p ps by
            simp [specAggAux, show ¬ t < p.length by omega]]
          exact ih p
      · by_cases hfl : t < buf.length + 2 + p.length
        · rw [show aggAux t buf (p :: ps) = buf :: aggAux t p ps by
            simp [aggAux, hbuf, show (str ("\n\n")).length = 2 from rfl]
            omega]
          rw [show specAggAux t buf (p :: ps) = buf :: specAggAux t p ps by
            simp [specAggAux, hbuf, show (str ("\n\n")).length = 2 from rfl]
            omega]
          rw [ih p]
        · rw [show aggAux t buf (p :: ps) = aggAux t (buf ++ str ("\n\n") ++ p) ps by
            simp [aggAux, hbuf, show (str ("\n\n")).length = 2 from rfl]
            omega]
          rw [show specAggAux t buf (p :: ps) = specAggAux t (buf ++ str ("\n\n") ++ p) ps by
            simp [specAggAux, hbuf, show (str ("\n\n")).length = 2 from rfl]
            omega]
          exact ih (buf ++ str ("\n\n") ++ p)

theorem aggAux_strip (t : Nat) : ∀ (ps : List (List Char)) (buf : List Char),
    stripWs (aggAux t buf ps).flatten = stripWs buf ++ stripWs ps.flatten := by
  intro ps
  induction ps with
  | nil =>
      intro buf
      by_cases hbuf : buf = [] <;> simp [aggAux, hbuf, stripWs_nil]
  | cons p ps ih =>
      intro buf
      by_cases h1 : buf = [] ∧ t ≤ p.length
      · rw [show aggAux t buf (p :: ps) = p :: aggAux t [] ps by simp [aggAux, h1.1, h1.2]]
        rw [List.flatten_cons, stripWs_append, ih [], h1.1]
        simp [stripWs_nil, stripWs_append]
      · by_cases h2 : t < buf.length + (if buf = [] then ([] : List Char)
            else str ("\n\n")).length + p.length ∧ buf ≠ []
        · rw [show aggAux t buf (p :: ps) = buf :: aggAux t p ps by
            rw [aggAux]; rw [if_neg h1]; simp only [if_pos h2]]
          rw [List.flatten_cons, stripWs_append, ih p, List.flatten_cons, stripWs_append]
        · rw [show aggAux t buf (p :: ps)
              = aggAux t (buf ++ (if buf = [] then ([] : List Char) else str ("\n\n")) ++ p) ps by
            rw [aggAux]; rw [if_neg h1]; simp only [if_neg h2]]
          rw [ih, List.flatten_cons]
          by_cases hbuf : buf = [] <;>
            simp [hbuf, stripWs_append, stripWs_nil, List.append_assoc,
              show stripWs (str ("\n\n")) = [] by decide]

theorem aggregate_strip (ps : List (List Char)) (t : Nat) :
    stripWs (aggregateParagraphsIntoChunks ps t).flatten = stripWs ps.flatten := by
  have := aggAux_strip t ps []
  simpa [aggregateParagraphsIntoChunks, stripWs_nil] using this

theorem aggAux_ne_nil_of_buf (t : Nat) : ∀ (ps : List (List Char)) (buf : List Char),
    buf ≠ [] → aggAux t buf ps ≠ [] := by
  intro ps
  induction ps with
  | nil => intro buf hbuf; simp [aggAux, hbuf]
  | cons p ps ih =>
      intro buf hbuf
      rw [aggAux]
      rw [if_neg (by intro hc; exact hbuf hc.1)]
      by_cases h2 : t < buf.length + (if buf = [] then ([] : List Char)
          else str ("\n\n")).length + p.length ∧ buf ≠ []
      · simp only [if_pos h2]
        simp
      · simp only [if_neg h2]
        exact ih _ (by simp [hbuf])

theorem aggregate_ne_nil (ps : List (List Char)) (t : Nat) (hne : ps ≠ [])
    (hall : ∀ p ∈ ps, p ≠ []) : aggregateParagraphsIntoChunks ps t ≠ [] := by
  cases ps with
  | nil => exact absurd rfl hne
  | cons p ps =>
      unfold aggregateParagraphsIntoChunks
      by_cases h1 : t ≤ p.length
      · rw [show aggAux t [] (p :: ps) = p :: aggAux t [] ps by simp [aggAux, h1]]
        simp
      · rw [show aggAux t [] (p :: ps) = aggAux t p ps by simp [aggAux, h1]]
        exact aggAux_ne_nil_of_buf t ps p (hall p (by simp))

/-! Round trip between `joinWith "\n\n"` and `splitTextIntoParagraphs`, for
paragraphs in the normal form the splitter itself produces. -/

theorem dropWhile_isWs_length_le (l : List Char) : (l.dropWhile isWs).length ≤ l.length :=
  (List.dropWhile_sublist isWs).length_le

theorem dropWhile_eq_self_of_length (l : List Char)
    (h : (l.dropWhile isWs).length = l.length) : l.dropWhile isWs = l := by
  cases l with
  | nil => rfl
  | cons c rest =>
      by_cases hc : isWs c
      · rw [List.dropWhile_cons, if_pos hc] at h ⊢
        have := dropWhile_isWs_length_le rest
        simp at h
        omega
      · rw [List.dropWhile_cons, if_neg hc]

theorem trim_eq_self_parts (p : List Char) (h : trim p = p) :
    p.dropWhile isWs = p ∧ p.reverse.dropWhile isWs = p.reverse := by
  have hlen1 : (trim p).length ≤ ((p.dropWhile isWs).reverse.dropWhile isWs).length := by
    unfold trim
    rw [List.length_reverse]
  have hlen2 : ((p.dropWhile isWs).reverse.dropWhile isWs).length
      ≤ (p.dropWhile isWs).length := by
    calc ((p.dropWhile isWs).reverse.dropWhile isWs).length
        ≤ (p.dropWhile isWs).reverse.length := dropWhile_isWs_length_le _
      _ = (p.dropWhile isWs).length := List.length_reverse _
  have hlen3 : (p.dropWhile isWs).length ≤ p.length := dropWhile_isWs_length_le p
  have hplen : (trim p).length = p.length := by rw [h]
  have h1 : p.dropWhile isWs = p := dropWhile_eq_self_of_length p (by omega)
  refine ⟨h1, ?_⟩
  have h2 : trim p = (p.reverse.dropWhile isWs).reverse := by
    unfold trim
    rw [h1]
  rw [h2] at h
  have := congrArg List.reverse h
  rwa [List.reverse_reverse] at this

theorem trimmed_head_not_ws (p : List Char) (h : trim p = p) (c : Char) (rest : List Char)
    (hp : p = c :: rest) : isWs c = false := by
  have h1 := (trim_eq_self_parts p h).1
  subst hp
  by_cases hc : isWs c
  · rw [List.dropWhile_cons, if_pos hc] at h1
    have := dropWhile_isWs_length_le rest
    have := congrArg List.length h1
    simp at this
    omega
  · simpa using hc

theorem trimmed_head_not_nl (p : List Char) (h : trim p = p) : p.head? ≠ some '\n' := by
  cases p with
  | nil => simp
  | cons c rest =>
      intro hc
      simp at hc
      subst hc
      have := trimmed_head_not_ws _ h '\n' rest rfl
      simp [isWs] at this

theorem trimmed_getLast_not_nl (p : List Char) (h : trim p = p) : p.getLast? ≠ some '\n' := by
  have h2 := (trim_eq_self_parts p h).2
  intro hc
  obtain ⟨q, hq⟩ := List.getLast?_eq_some_iff.mp hc
  subst hq
  rw [List.reverse_append] at h2
  simp only [List.reverse_cons, List.reverse_nil, List.nil_append, List.singleton_append] at h2
  rw [List.dropWhile_cons, if_pos (by decide : isWs '\n' = true)] at h2
  have hle := dropWhile_isWs_length_le q.reverse
  have hlen := congrArg List.length h2
  simp [List.length_reverse] at hle hlen
  omega

theorem hasDoubleNl_cons_of_ne (c : Char) (p : List Char) (hc : ¬ c = '\n') :
    hasDoubleNl (c :: p) = hasDoubleNl p := by
  cases p with
  | nil => simp [hasDoubleNl]
  | cons d q => simp [hasDoubleNl, hc]

theorem hasDoubleNl_nl_cons (p : List Char) (hp : p.head? ≠ some '\n') :
    hasDoubleNl ('\n' :: p) = hasDoubleNl p := by
  cases p with
  | nil => simp [hasDoubleNl]
  | cons d q =>
      have hd : ¬ d = '\n' := by
        intro h; subst h; exact hp rfl
      simp [hasDoubleNl, hd]

theorem splitBLAux_scan_end : ∀ (p : List Char) (nl : Nat) (acc : List Char),
    nl ≤ 1 → (nl = 1 → p.head? ≠ some '\n') →
    hasDoubleNl p = false →
    splitBLAux acc nl p = [acc.reverse ++ List.replicate nl '\n' ++ p] := by
  intro p
  induction p with
  | nil =>
      intro nl acc h1 h3 h4
      simp [splitBLAux, show ¬ 2 ≤ nl by omega]
  | cons c p ih =>
      intro nl acc h1 h3 h4
      by_cases hc : c = '\n'
      · subst hc
        have hnl0 : nl = 0 := by
          rcases Nat.eq_or_lt_of_le h1 with h | h
          · exact absurd (h3 h) (by simp)
          · omega
        subst hnl0
        have hph : p.head? ≠ some '\n' := by
          cases p with
          | nil => simp
          | cons d q =>
              intro hd
              simp at hd
              subst hd
              simp [hasDoubleNl] at h4
        rw [show splitBLAux acc 0 ('\n' :: p) = splitBLAux acc 1 p from by
          simp [splitBLAux]]
        rw [ih 1 acc (by omega) (fun _ => hph)
          (by rwa [hasDoubleNl_nl_cons p hph] at h4)]
        simp
      · rw [show splitBLAux acc nl (c :: p)
            = splitBLAux (c :: (List.replicate nl '\n' ++ acc)) 0 p by
          simp [splitBLAux, hc, show ¬ 2 ≤ nl by omega]]
        rw [ih 0 (c :: (List.replicate nl '\n' ++ acc)) (by omega)
          (by simp) (by rwa [hasDoubleNl_cons_of_ne c p hc] at h4)]
        simp [List.reverse_replicate]

theorem splitBLAux_scan (r : List Char) (hr : r.head? ≠ some '\n') (hrne : r ≠ []) :
    ∀ (p : List Char) (nl : Nat) (acc : List Char),
    nl ≤ 1 → (p = [] → nl = 0) → (nl = 1 → p.head? ≠ some '\n') →
    hasDoubleNl p = false → p.getLast? ≠ some '\n' →
    splitBLAux acc nl (p ++ '\n' :: '\n' :: r)
      = (acc.reverse ++ List.replicate nl '\n' ++ p) :: splitBLAux [] 0 r := by
  intro p
  induction p with
  | nil =>
      intro nl acc h1 h2 h3 h4 h5
      have : nl = 0 := h2 rfl
      subst this
      cases r with
      | nil => exact absurd rfl hrne
      | cons c rest =>
          have hc : ¬ c = '\n' := by
            intro hc; subst hc; exact hr rfl
          rw [show splitBLAux acc 0 ([] ++ '\n' :: '\n' :: c :: rest)
              = acc.reverse :: splitBLAux [c] 0 rest by
            simp [splitBLAux, hc]]
          rw [show splitBLAux [] 0 (c :: rest) = splitBLAux [c] 0 rest by
            simp [splitBLAux, hc]]
          simp
  | cons c p ih =>
      intro nl acc h1 h2 h3 h4 h5
      by_cases hc : c = '\n'
      · subst hc
        have hnl0 : nl = 0 := by
          rcases Nat.eq_or_lt_of_le h1 with h | h
          · exact absurd (h3 h) (by simp)
          · omega
        subst hnl0
        have hpne : p ≠ [] := by
          intro hp; subst hp
          exact h5 rfl
        have hph : p.head? ≠ some '\n' := by
          cases p with
          | nil => simp
          | cons d q =>
              intro hd
              simp at hd
              subst hd
              simp [hasDoubleNl] at h4
        rw [show splitBLAux acc 0 (('\n' :: p) ++ '\n' :: '\n' :: r)
            = splitBLAux acc 1 (p ++ '\n' :: '\n' :: r) from by
          simp [splitBLAux]]
        rw [ih 1 acc (by omega) (fun hp => absurd hp hpne) (fun _ => hph)
          (by rwa [hasDoubleNl_nl_cons p hph] at h4)
          (by cases p with
            | nil => exact absurd rfl hpne
            | cons d q => rwa [List.getLast?_cons_cons] at h5)]
        simp
      · rw [show splitBLAux acc nl ((c :: p) ++ '\n' :: '\n' :: r)
            = splitBLAux (c :: (List.replicate nl '\n' ++ acc)) 0 (p ++ '\n' :: '\n' :: r) by
          simp [splitBLAux, hc, show ¬ 2 ≤ nl by omega]]
        rw [ih 0 (c :: (List.replicate nl '\n' ++ acc)) (by omega) (fun _ => rfl)
          (by simp) (by rwa [hasDoubleNl_cons_of_ne c p hc] at h4)
          (by cases p with
            | nil => simp
            | cons d q => rwa [List.getLast?_cons_cons] at h5)]
        simp [List.reverse_replicate]

theorem joinWith_ne_nil (sep : List Char) (p : List Char) (ps : List (List Char))
    (hp : p ≠ []) : joinWith sep (p :: ps) ≠ [] := by
  cases ps <;> simp [joinWith, hp]

theorem joinWith_head (sep : List Char) (p : List Char) (ps : List (List Char)) :
    p ≠ [] → (joinWith sep (p :: ps)).head? = p.head? := by
  intro hp
  cases ps with
  | nil => rfl
  | cons q qs =>
      rw [show joinWith sep (p :: q :: qs) = p ++ sep ++ joinWith sep (q :: qs) from rfl]
      rw [List.append_assoc, List.head?_append]
      cases p with
      | nil => exact absurd rfl hp
      | cons c rest => rfl

theorem splitOnBlankLines_single (p : List Char) (_htr : trim p = p)
    (hdn : hasDoubleNl p = false) : splitOnBlankLines p = [p] := by
  unfold splitOnBlankLines
  rw [splitBLAux_scan_end p 0 [] (by omega) (by simp) hdn]
  simp

theorem splitOnBlankLines_joinWith : ∀ (ps : List (List Char)), ps ≠ [] →
    (∀ p ∈ ps, p ≠ [] ∧ trim p = p ∧ hasDoubleNl p = false) →
    splitOnBlankLines (joinWith (str ("\n\n")) ps) = ps := by
  intro ps
  induction ps with
  | nil => intro h _; exact absurd rfl h
  | cons p ps ih =>
      intro _ hall
      obtain ⟨hpne, hptr, hpdn⟩ := hall p (by simp)
      cases ps with
      | nil =>
          rw [show joinWith (str ("\n\n")) [p] = p from rfl]
          exact splitOnBlankLines_single p hptr hpdn
      | cons q qs =>
          obtain ⟨hqne, hqtr, _⟩ := hall q (by simp)
          have hj : joinWith (str ("\n\n")) (p :: q :: qs)
              = p ++ '\n' :: '\n' :: joinWith (str ("\n\n")) (q :: qs) := by
            rw [show joinWith (str ("\n\n")) (p :: q :: qs)
                = p ++ str ("\n\n") ++ joinWith (str ("\n\n")) (q :: qs) from rfl,
              List.append_assoc]
            rfl
          unfold splitOnBlankLines
          rw [hj, splitBLAux_scan (joinWith (str ("\n\n")) (q :: qs))
            (by rw [joinWith_head _ q qs hqne]
                intro hc
                have := trimmed_head_not_nl q hqtr
                exact this hc)
            (joinWith_ne_nil _ q qs hqne) p 0 [] (by omega) (fun _ => rfl) (by simp)
            hpdn (trimmed_getLast_not_nl p hptr)]
          rw [show splitBLAux [] 0 (joinWith (str ("\n\n")) (q :: qs))
              = splitOnBlankLines (joinWith (str ("\n\n")) (q :: qs)) from rfl]
          rw [ih (by simp) (fun x hx => hall x (by simp [hx]))]
          simp

theorem splitTextIntoParagraphs_joinWith (ps : List (List Char)) (hne : ps ≠ [])
    (hall : ∀ p ∈ ps, p ≠ [] ∧ trim p = p ∧ hasDoubleNl p = false) :
    splitTextIntoParagraphs (joinWith (str ("\n\n")) ps) = ps := by
  unfold splitTextIntoParagraphs
  rw [splitOnBlankLines_joinWith ps hne hall]
  have hmap : ∀ (qs : List (List Char)), (∀ p ∈ qs, trim p = p) → qs.map trim = qs := by
    intro qs h
    induction qs with
    | nil => rfl
    | cons q rest ih =>
        rw [List.map_cons, h q (by simp), ih (fun x hx => h x (by simp [hx]))]
  rw [hmap ps (fun p hp => (hall p hp).2.1)]
  apply List.filter_eq_self.mpr
  intro p hp
  cases hq : p with
  | nil => exact absurd hq (hall p hp).1
  | cons c rest => rfl

theorem joinWith_append_one (sep : List Char) : ∀ (ps : List (List Char)) (p : List Char),
    ps ≠ [] → joinWith sep (ps ++ [p]) = joinWith sep ps ++ sep ++ p := by
  intro ps
  induction ps with
  | nil => intro p h; exact absurd rfl h
  | cons q qs ih =>
      intro p _
      cases qs with
      | nil => rfl
      | cons q2 qs2 =>
          rw [show (q :: q2 :: qs2) ++ [p] = q :: ((q2 :: qs2) ++ [p]) from rfl]
          rw [show joinWith sep (q :: (q2 :: qs2 ++ [p]))
              = q ++ sep ++ joinWith sep (q2 :: qs2 ++ [p]) by
            cases qs2 <;> rfl]
          rw [ih p (by simp)]
          rw [show joinWith sep (q :: q2 :: qs2) = q ++ sep ++ joinWith sep (q2 :: qs2) from rfl]
          simp [List.append_assoc]

theorem joinWith_eq_nil (ps : List (List Char)) (hall : ∀ p ∈ ps, p ≠ [])
    (h : joinWith (str ("\n\n")) ps = []) : ps = [] := by
  cases ps with
  | nil => rfl
  | cons p qs => exact absurd h (joinWith_ne_nil _ p qs (hall p (by simp)))

theorem aggAux_resplit (t : Nat) : ∀ (ps : List (List Char)),
    (∀ p ∈ ps, p ≠ [] ∧ trim p = p ∧ hasDoubleNl p = false) →
    ∀ (gps : List (List Char)),
    (∀ p ∈ gps, p ≠ [] ∧ trim p = p ∧ hasDoubleNl p = false) →
    (aggAux t (joinWith (str ("\n\n")) gps) ps).flatMap splitTextIntoParagraphs
      = gps ++ ps := by
  intro ps
  induction ps with
  | nil =>
      intro _ gps hg
      by_cases hgps : gps = []
      · subst hgps
        simp [aggAux, joinWith]
      · have hne := joinWith_ne_nil (str ("\n\n"))
        rw [show aggAux t (joinWith (str ("\n\n")) gps) [] = [joinWith (str ("\n\n")) gps] by
          cases gps with
          | nil => exact absurd rfl hgps
          | cons g gs => simp [aggAux, joinWith_ne_nil _ g gs (hg g (by simp)).1]]
        rw [show [joinWith (str ("\n\n")) gps].flatMap splitTextIntoParagraphs
            = splitTextIntoParagraphs (joinWith (str ("\n\n")) gps) by simp]
        rw [splitTextIntoParagraphs_joinWith gps hgps hg]
        simp
  | cons p ps ih =>
      intro hps gps hg
      have hp := hps p (by simp)
      have hps' : ∀ q ∈ ps, q ≠ [] ∧ trim q = q ∧ hasDoubleNl q = false :=
        fun q hq => hps q (by simp [hq])
      by_cases hgps : gps = []
      · subst hgps
        by_cases hlen : t ≤ p.length
        · rw [show aggAux t (joinWith (str ("\n\n")) []) (p :: ps) = p :: aggAux t [] ps by
            simp [aggAux, joinWith, hlen]]
          rw [show (p :: aggAux t [] ps).flatMap splitTextIntoParagraphs
              = splitTextIntoParagraphs p ++ (aggAux t [] ps).flatMap splitTextIntoParagraphs
            from rfl]
          rw [show aggAux t ([] : List Char) ps
              = aggAux t (joinWith (str ("\n\n")) []) ps from rfl]
          rw [ih hps' [] (by simp)]
          rw [show splitTextIntoParagraphs p = [p] by
            have := splitTextIntoParagraphs_joinWith [p] (by simp)
              (by intro q hq; simp at hq; subst hq; exact hp)
            simpa [joinWith] using this]
          simp
        · rw [show aggAux t (joinWith (str ("\n\n")) []) (p :: ps) = aggAux t p ps by
            simp [aggAux, joinWith, hlen]]
          rw [show aggAux t p ps = aggAux t (joinWith (str ("\n\n")) [p]) ps from rfl]
          rw [ih hps' [p] (by intro q hq; simp at hq; subst hq; exact hp)]
          simp
      · have hbufne : joinWith (str ("\n\n")) gps ≠ [] := by
          cases gps with
          | nil => exact absurd rfl hgps
          | cons g gs => exact joinWith_ne_nil _ g gs (hg g (by simp)).1
        by_cases hfl : t < (joinWith (str ("\n\n")) gps).length + 2 + p.length
        · rw [show aggAux t (joinWith (str ("\n\n")) gps) (p :: ps)
              = joinWith (str ("\n\n")) gps :: aggAux t p ps by
            simp [aggAux, hbufne, show (str ("\n\n")).length = 2 from rfl]
            omega]
          rw [show (joinWith (str ("\n\n")) gps :: aggAux t p ps).flatMap
                splitTextIntoParagraphs
              = splitTextIntoParagraphs (joinWith (str ("\n\n")) gps)
                ++ (aggAux t p ps).flatMap splitTextIntoParagraphs from rfl]
          rw [splitTextIntoParagraphs_joinWith gps hgps hg]
          rw [show aggAux t p ps = aggAux t (joinWith (str ("\n\n")) [p]) ps from rfl]
          rw [ih hps' [p] (by intro q hq; simp at hq; subst hq; exact hp)]
          simp
        · rw [show aggAux t (joinWith (str ("\n\n")) gps) (p :: ps)
              = aggAux t (joinWith (str ("\n\n")) gps ++ str ("\n\n") ++ p) ps by
            simp [aggAux, hbufne, show (str ("\n\n")).length = 2 from rfl]
            omega]
          rw [show joinWith (str ("\n\n")) gps ++ str ("\n\n") ++ p
              = joinWith (str ("\n\n")) (gps ++ [p]) from
            (joinWith_append_one (str ("\n\n")) gps p hgps).symm]
          rw [ih hps' (gps ++ [p]) (by
            intro q hq
            rcases List.mem_append.mp hq with h | h
            · exact hg q h
            · simp at h; subst h; exact hp)]
          simp

/-! Shape of the chunks the validation loops emit: filenames, statuses,
token bounds and index numbering. -/

theorem startsWith_append_self (p r : List Char) : startsWith p (p ++ r) = true := by
  induction p with
  | nil => rfl
  | cons c q ih => simp [startsWith, ih]

theorem endsWith_append_self (s x : List Char) : endsWith s (x ++ s) = true := by
  unfold endsWith
  rw [List.reverse_append]
  exact startsWith_append_self s.reverse x.reverse

theorem oversized_name_endsWith (base : List Char) (n : Nat) :
    endsWith (str ("_OVERSIZED.wav")) (mkFileName base n (str ("_OVERSIZED"))) = true := by
  unfold mkFileName
  rw [show base ++ str ("_Part_") ++ padStart3 (natToChars n) ++ str ("_OVERSIZED")
        ++ str (".wav")
      = (base ++ str ("_Part_") ++ padStart3 (natToChars n)) ++ str ("_OVERSIZED.wav") by
    simp only [List.append_assoc]
    rfl]
  exact endsWith_append_self _ _

/-- Every chunk a `subChunksLoop` run emits is a plain accepted chunk, an
oversized-flagged chunk, or a sub-token-error chunk; its filename number is
its own index plus one; indices are contiguous from `idx` and the returned
next index is `idx` plus the number of chunks emitted. -/
theorem subChunksLoop_shape (oracle : Oracle) (vp title base : List Char) :
    ∀ (subs : List (List Char)) (idx ctr : Nat),
    (subChunksLoop oracle vp title base idx ctr subs).1.1
      = idx + (subChunksLoop oracle vp title base idx ctr subs).2.length ∧
    (subChunksLoop oracle vp title base idx ctr subs).2.map AudiobookChunk.index
      = List.range' idx (subChunksLoop oracle vp title base idx ctr subs).2.length ∧
    ∀ ch ∈ (subChunksLoop oracle vp title base idx ctr subs).2,
      (ch.fileName = mkFileName base (ch.index + 1) [] ∧ ch.status = ChunkStatus.pending ∧
        ∃ m, ch.tokenCount = some m ∧ m ≤ MAX_TTS_TOKENS) ∨
      (ch.fileName = mkFileName base (ch.index + 1) (str ("_OVERSIZED")) ∧
        ch.status = ChunkStatus.pending ∧
        ∃ m, ch.tokenCount = some m ∧ MAX_TTS_TOKENS < m) ∨
      (ch.fileName = mkFileName base (ch.index + 1) (str ("_SUB_TOKEN_ERR")) ∧
        ch.status = ChunkStatus.error) := by
  intro subs
  induction subs with
  | nil =>
      intro idx ctr
      refine ⟨rfl, rfl, ?_⟩
      intro ch hch
      simp [subChunksLoop] at hch
  | cons sub subs ih =>
      intro idx ctr
      by_cases htr : trim sub = []
      · rw [show subChunksLoop oracle vp title base idx ctr (sub :: subs)
            = subChunksLoop oracle vp title base idx ctr subs by
          simp [subChunksLoop, htr]]
        exact ih idx ctr
      · rcases hres : (countTokensForText oracle ctr vp sub).result with e | m
        · have hunf : subChunksLoop oracle vp title base idx ctr (sub :: subs)
              = ((subChunksLoop oracle vp title base (idx + 1)
                    (ctr + (countTokensForText oracle ctr vp sub).callsMade) subs).1,
                 { index := idx, text := errTextSnippet sub, chapterTitle := some title,
                   fileName := mkFileName base (idx + 1) (str ("_SUB_TOKEN_ERR")),
                   status := ChunkStatus.error, tokenCount := none,
                   errorDetails :=
                     some (str ("Token counting failed for this re-split sub-segment: ")
                       ++ e) } ::
                 (subChunksLoop oracle vp title base (idx + 1)
                    (ctr + (countTokensForText oracle ctr vp sub).callsMade) subs).2) := by
            simp [subChunksLoop, htr, hres]
          obtain ⟨ih1, ih2, ih3⟩ := ih (idx + 1)
            (ctr + (countTokensForText oracle ctr vp sub).callsMade)
          rw [hunf]
          refine ⟨by simp [ih1]; omega, ?_, ?_⟩
          · simp only [List.map_cons, List.length_cons, ih2, List.range'_succ]
          · intro ch hch
            rcases List.mem_cons.mp hch with hch1 | hch2
            · subst hch1
              exact Or.inr (Or.inr ⟨rfl, rfl⟩)
            · exact ih3 ch hch2
        · have hunf : subChunksLoop oracle vp title base idx ctr (sub :: subs)
              = ((subChunksLoop oracle vp title base (idx + 1)
                    (ctr + (countTokensForText oracle ctr vp sub).callsMade) subs).1,
                 { index := idx, text := sub, chapterTitle := some title,
                   fileName := mkFileName base (idx + 1)
                     (if m ≤ MAX_TTS_TOKENS then [] else str ("_OVERSIZED")),
                   status := ChunkStatus.pending, tokenCount := some m,
                   errorDetails := none } ::
                 (subChunksLoop oracle vp title base (idx + 1)
                    (ctr + (countTokensForText oracle ctr vp sub).callsMade) subs).2) := by
            simp [subChunksLoop, htr, hres]
          obtain ⟨ih1, ih2, ih3⟩ := ih (idx + 1)
            (ctr + (countTokensForText oracle ctr vp sub).callsMade)
          rw [hunf]
          refine ⟨by simp [ih1]; omega, ?_, ?_⟩
          · simp only [List.map_cons, List.length_cons, ih2, List.range'_succ]
          · intro ch hch
            rcases List.mem_cons.mp hch with hch1 | hch2
            · subst hch1
              by_cases hm : m ≤ MAX_TTS_TOKENS
              · exact Or.inl ⟨by simp [hm], rfl, m, rfl, hm⟩
              · exact Or.inr (Or.inl ⟨by simp [hm], rfl, m, rfl, by omega⟩)
            · exact ih3 ch hch2

/-- Every chunk `validateLoop` emits carries one of the four filename
suffixes, with the number in the filename equal to the chunk's own index
plus one; indices are contiguous from `idx`. -/
theorem validateLoop_shape (oracle : Oracle) (vp title base : List Char) :
    ∀ (cands : List (List Char)) (idx ctr : Nat),
    (validateLoop oracle vp title base idx ctr cands).map AudiobookChunk.index
      = List.range' idx (validateLoop oracle vp title base idx ctr cands).length ∧
    ∀ ch ∈ validateLoop oracle vp title base idx ctr cands,
      (ch.fileName = mkFileName base (ch.index + 1) [] ∧ ch.status = ChunkStatus.pending ∧
        ∃ n, ch.tokenCount = some n ∧ n ≤ MAX_TTS_TOKENS) ∨
      (ch.fileName = mkFileName base (ch.index + 1) (str ("_OVERSIZED")) ∧
        ch.status = ChunkStatus.pending ∧
        ∃ n, ch.tokenCount = some n ∧ MAX_TTS_TOKENS < n) ∨
      (ch.fileName = mkFileName base (ch.index + 1) (str ("_TOKEN_ERR")) ∧
        ch.status = ChunkStatus.error) ∨
      (ch.fileName = mkFileName base (ch.index + 1) (str ("_SUB_TOKEN_ERR")) ∧
        ch.status = ChunkStatus.error) := by
  intro cands
  induction cands with
  | nil =>
      intro idx ctr
      exact ⟨rfl, by intro ch hch; simp [validateLoop] at hch⟩
  | cons cand cands ih =>
      intro idx ctr
      rcases hres : (countTokensForText oracle ctr vp cand).result with e | n
      · have hunf : validateLoop oracle vp title base idx ctr (cand :: cands)
            = { index := idx, text := errTextSnippet cand, chapterTitle := some title,
                fileName := mkFileName base (idx + 1) (str ("_TOKEN_ERR")),
                status := ChunkStatus.error, tokenCount := none,
                errorDetails :=
                  some (str ("Token counting failed for this candidate chunk: ") ++ e) } ::
              validateLoop oracle vp title base (idx + 1)
                (ctr + (countTokensForText oracle ctr vp cand).callsMade) cands := by
          simp [validateLoop, hres]
        obtain ⟨ih1, ih2⟩ := ih (idx + 1)
          (ctr + (countTokensForText oracle ctr vp cand).callsMade)
        rw [hunf]
        refine ⟨by simp only [List.map_cons, List.length_cons, ih1, List.range'_succ], ?_⟩
        intro ch hch
        rcases List.mem_cons.mp hch with hch1 | hch2
        · subst hch1
          exact Or.inr (Or.inr (Or.inl ⟨rfl, rfl⟩))
        · exact ih2 ch hch2
      · by_cases hn : n ≤ IDEAL_CHUNK_TOKEN_UPPER_BOUND
        · have hunf : validateLoop oracle vp title base idx ctr (cand :: cands)
              = { index := idx, text := cand, chapterTitle := some title,
                  fileName := mkFileName base (idx + 1) [],
                  status := ChunkStatus.pending, tokenCount := some n,
                  errorDetails := none } ::
                validateLoop oracle vp title base (idx + 1)
                  (ctr + (countTokensForText oracle ctr vp cand).callsMade) cands := by
            simp [validateLoop, hres, hn]
          obtain ⟨ih1, ih2⟩ := ih (idx + 1)
            (ctr + (countTokensForText oracle ctr vp cand).callsMade)
          rw [hunf]
          refine ⟨by simp only [List.map_cons, List.length_cons, ih1, List.range'_succ], ?_⟩
          intro ch hch
          rcases List.mem_cons.mp hch with hch1 | hch2
          · subst hch1
            refine Or.inl ⟨rfl, rfl, n, rfl, ?_⟩
            have : IDEAL_CHUNK_TOKEN_UPPER_BOUND ≤ MAX_TTS_TOKENS := by decide
            omega
          · exact ih2 ch hch2
        · have hunf : validateLoop oracle vp title base idx ctr (cand :: cands)
              = (subChunksLoop oracle vp title base idx
                  (ctr + (countTokensForText oracle ctr vp cand).callsMade)
                  (forceSplitTextRecursive_SYNC cand FINE_GRAINED_RECURSIVE_CHAR_TARGET 0)).2
                ++ validateLoop oracle vp title base
                  (subChunksLoop oracle vp title base idx
                    (ctr + (countTokensForText oracle ctr vp cand).callsMade)
                    (forceSplitTextRecursive_SYNC cand FINE_GRAINED_RECURSIVE_CHAR_TARGET 0)).1.1
                  (subChunksLoop oracle vp title base idx
                    (ctr + (countTokensForText oracle ctr vp cand).callsMade)
                    (forceSplitTextRecursive_SYNC cand FINE_GRAINED_RECURSIVE_CHAR_TARGET 0)).1.2
                  cands := by
            simp [validateLoop, hres, hn]
          obtain ⟨hs1, hs2, hs3⟩ := subChunksLoop_shape oracle vp title base
            (forceSplitTextRecursive_SYNC cand FINE_GRAINED_RECURSIVE_CHAR_TARGET 0) idx
            (ctr + (countTokensForText oracle ctr vp cand).callsMade)
          obtain ⟨ih1, ih2⟩ := ih
            (subChunksLoop oracle vp title base idx
              (ctr + (countTokensForText oracle ctr vp cand).callsMade)
              (forceSplitTextRecursive_SYNC cand FINE_GRAINED_RECURSIVE_CHAR_TARGET 0)).1.1
            (subChunksLoop oracle vp title base idx
              (ctr + (countTokensForText oracle ctr vp cand).callsMade)
              (forceSplitTextRecursive_SYNC cand FINE_GRAINED_RECURSIVE_CHAR_TARGET 0)).1.2
          rw [hunf]
          constructor
          · rw [List.map_append, hs2, ih1, hs1, List.length_append]
            have := List.range'_append idx
              (subChunksLoop oracle vp title base idx
                (ctr + (countTokensForText oracle ctr vp cand).callsMade)
                (forceSplitTextRecursive_SYNC cand FINE_GRAINED_RECURSIVE_CHAR_TARGET 0)).2.length
              (validateLoop oracle vp title base
                (idx + (subChunksLoop oracle vp title base idx
                  (ctr + (countTokensForText oracle ctr vp cand).callsMade)
                  (forceSplitTextRecursive_SYNC cand FINE_GRAINED_RECURSIVE_CHAR_TARGET 0)).2.length)
                (subChunksLoop oracle vp title base idx
                  (ctr + (countTokensForText oracle ctr vp cand).callsMade)
                  (forceSplitTextRecursive_SYNC cand FINE_GRAINED_RECURSIVE_CHAR_TARGET 0)).1.2
                cands).length 1
            rw [show idx + 1 * (subChunksLoop oracle vp title base idx
                (ctr + (countTokensForText oracle ctr vp cand).callsMade)
                (forceSplitTextRecursive_SYNC cand FINE_GRAINED_RECURSIVE_CHAR_TARGET 0)).2.length
              = idx + (subChunksLoop oracle vp title base idx
                (ctr + (countTokensForText oracle ctr vp cand).callsMade)
                (forceSplitTextRecursive_SYNC cand FINE_GRAINED_RECURSIVE_CHAR_TARGET 0)).2.length
              by ring] at this
            rw [this, Nat.add_comm]
          · intro ch hch
            rcases List.mem_append.mp hch with hch1 | hch2
            · rcases hs3 ch hch1 with h | h | h
              · exact Or.inl h
              · exact Or.inr (Or.inl h)
              · exact Or.inr (Or.inr (Or.inr h))
            · exact ih2 ch hch2

/-! Coverage: the loops preserve whitespace-stripped content as long as no
token-count failure replaced a chunk's text. -/

theorem subChunksLoop_strip (oracle : Oracle) (vp title base : List Char) :
    ∀ (subs : List (List Char)) (idx ctr : Nat),
    (∀ ch ∈ (subChunksLoop oracle vp title base idx ctr subs).2,
      ch.status ≠ ChunkStatus.error) →
    stripWs (((subChunksLoop oracle vp title base idx ctr subs).2.map
      AudiobookChunk.text).flatten) = stripWs subs.flatten := by
  intro subs
  induction subs with
  | nil => intro idx ctr _; simp [subChunksLoop, stripWs_nil]
  | cons sub subs ih =>
      intro idx ctr h
      by_cases htr : trim sub = []
      · rw [show subChunksLoop oracle vp title base idx ctr (sub :: subs)
            = subChunksLoop oracle vp title base idx ctr subs by
          simp [subChunksLoop, htr]]
        rw [ih idx ctr (by
          intro ch hch
          apply h ch
          rw [show subChunksLoop oracle vp title base idx ctr (sub :: subs)
              = subChunksLoop oracle vp title base idx ctr subs by
            simp [subChunksLoop, htr]]
          exact hch)]
        rw [List.flatten_cons, stripWs_append, stripWs_eq_nil_of_trim sub htr]
        simp
      · rcases hres : (countTokensForText oracle ctr vp sub).result with e | m
        · exfalso
          have hunf : subChunksLoop oracle vp title base idx ctr (sub :: subs)
              = ((subChunksLoop oracle vp title base (idx + 1)
                    (ctr + (countTokensForText oracle ctr vp sub).callsMade) subs).1,
                 { index := idx, text := errTextSnippet sub, chapterTitle := some title,
                   fileName := mkFileName base (idx + 1) (str ("_SUB_TOKEN_ERR")),
                   status := ChunkStatus.error, tokenCount := none,
                   errorDetails :=
                     some (str ("Token counting failed for this re-split sub-segment: ")
                       ++ e) } ::
                 (subChunksLoop oracle vp title base (idx + 1)
                    (ctr + (countTokensForText oracle ctr vp sub).callsMade) subs).2) := by
            simp [subChunksLoop, htr, hres]
          apply h _ (by rw [hunf]; exact List.mem_cons_self _ _)
          rfl
        · have hunf : subChunksLoop oracle vp title base idx ctr (sub :: subs)
              = ((subChunksLoop oracle vp title base (idx + 1)
                    (ctr + (countTokensForText oracle ctr vp sub).callsMade) subs).1,
                 { index := idx, text := sub, chapterTitle := some title,
                   fileName := mkFileName base (idx + 1)
                     (if m ≤ MAX_TTS_TOKENS then [] else str ("_OVERSIZED")),
                   status := ChunkStatus.pending, tokenCount := some m,
                   errorDetails := none } ::
                 (subChunksLoop oracle vp title base (idx + 1)
                    (ctr + (countTokensForText oracle ctr vp sub).callsMade) subs).2) := by
            simp [subChunksLoop, htr, hres]
          rw [hunf]
          simp only [List.map_cons, List.flatten_cons, stripWs_append]
          rw [ih (idx + 1) (ctr + (countTokensForText oracle ctr vp sub).callsMade) (by
            intro ch hch
            apply h ch
            rw [hunf]
            exact List.mem_cons_of_mem _ hch)]

theorem validateLoop_strip (oracle : Oracle) (vp title base : List Char) :
    ∀ (cands : List (List Char)) (idx ctr : Nat),
    (∀ ch ∈ validateLoop oracle vp title base idx ctr cands,
      ch.status ≠ ChunkStatus.error) →
    stripWs (((validateLoop oracle vp title base idx ctr cands).map
      AudiobookChunk.text).flatten) = stripWs cands.flatten := by
  intro cands
  induction cands with
  | nil => intro idx ctr _; simp [validateLoop, stripWs_nil]
  | cons cand cands ih =>
      intro idx ctr h
      rcases hres : (countTokensForText oracle ctr vp cand).result with e | n
      · exfalso
        have hunf : validateLoop oracle vp title base idx ctr (cand :: cands)
            = { index := idx, text := errTextSnippet cand, chapterTitle := some title,
                fileName := mkFileName base (idx + 1) (str ("_TOKEN_ERR")),
                status := ChunkStatus.error, tokenCount := none,
                errorDetails :=
                  some (str ("Token counting failed for this candidate chunk: ") ++ e) } ::
              validateLoop oracle vp title base (idx + 1)
                (ctr + (countTokensForText oracle ctr vp cand).callsMade) cands := by
          simp [validateLoop, hres]
        apply h _ (by rw [hunf]; exact List.mem_cons_self _ _)
        rfl
      · by_cases hn : n ≤ IDEAL_CHUNK_TOKEN_UPPER_BOUND
        · have hunf : validateLoop oracle vp title base idx ctr (cand :: cands)
              = { index := idx, text := cand, chapterTitle := some title,
                  fileName := mkFileName base (idx + 1) [],
                  status := ChunkStatus.pending, tokenCount := some n,
                  errorDetails := none } ::
                validateLoop oracle vp title base (idx + 1)
                  (ctr + (countTokensForText oracle ctr vp cand).callsMade) cands := by
            simp [validateLoop, hres, hn]
          rw [hunf]
          simp only [List.map_cons, List.flatten_cons, stripWs_append]
          rw [ih (idx + 1) (ctr + (countTokensForText oracle ctr vp cand).callsMade) (by
            intro ch hch
            apply h ch
            rw [hunf]
            exact List.mem_cons_of_mem _ hch)]
        · have hunf : validateLoop oracle vp title base idx ctr (cand :: cands)
              = (subChunksLoop oracle vp title base idx
                  (ctr + (countTokensForText oracle ctr vp cand).callsMade)
                  (forceSplitTextRecursive_SYNC cand FINE_GRAINED_RECURSIVE_CHAR_TARGET 0)).2
                ++ validateLoop oracle vp title base
                  (subChunksLoop oracle vp title base idx
                    (ctr + (countTokensForText oracle ctr vp cand).callsMade)
                    (forceSplitTextRecursive_SYNC cand
                      FINE_GRAINED_RECURSIVE_CHAR_TARGET 0)).1.1
                  (subChunksLoop oracle vp title base idx
                    (ctr + (countTokensForText oracle ctr vp cand).callsMade)
                    (forceSplitTextRecursive_SYNC cand
                      FINE_GRAINED_RECURSIVE_CHAR_TARGET 0)).1.2
                  cands := by
            simp [validateLoop, hres, hn]
        -- the sub-segment chunks cover the candidate, the tail covers the rest
          rw [hunf]
          rw [List.map_append, List.flatten_append, stripWs_append]
          rw [subChunksLoop_strip oracle vp title base _ _ _ (by
            intro ch hch
            apply h ch
            rw [hunf]
            exact List.mem_append_left _ hch)]
          rw [ih _ _ (by
            intro ch hch
            apply h ch
            rw [hunf]
            exact List.mem_append_right _ hch)]
          rw [show stripWs (forceSplitTextRecursive_SYNC cand
                FINE_GRAINED_RECURSIVE_CHAR_TARGET 0).flatten = stripWs cand from
            forceSplitF_strip FINE_GRAINED_RECURSIVE_CHAR_TARGET (by decide) 17 cand 0]
          rw [List.flatten_cons, stripWs_append]

theorem splitTextIntoParagraphs_mem_ne_nil (l : List Char) :
    ∀ p ∈ splitTextIntoParagraphs l, p ≠ [] := by
  intro p hp
  unfold splitTextIntoParagraphs at hp
  have := (List.mem_filter.mp hp).2
  intro hc
  subst hc
  simp at this

theorem inputIsEmpty_extract (input : ChunksInput) (h : inputIsEmpty input = true) :
    extractFullText input = [] := by
  cases input with
  | chapters l => cases l with
    | nil => rfl
    | cons c rest => simp [inputIsEmpty] at h
  | texts l => cases l with
    | nil => rfl
    | cons c rest => simp [inputIsEmpty] at h

/-- Coverage plus index contiguity for a whole pipeline run with no
error-status chunk. -/
theorem createAudiobookChunks_coverage (oracle : Oracle) (translit : List Char → List Char)
    (input : ChunksInput) (base0 vp : List Char)
    (h : ∀ ch ∈ createAudiobookChunks oracle translit input base0 vp,
      ch.status ≠ ChunkStatus.error) :
    stripWs (((createAudiobookChunks oracle translit input base0 vp).map
      AudiobookChunk.text).flatten) = stripWs (extractFullText input) ∧
    (createAudiobookChunks oracle translit input base0 vp).map AudiobookChunk.index
      = List.range (createAudiobookChunks oracle translit input base0 vp).length := by
  by_cases hie : inputIsEmpty input = true
  · rw [show createAudiobookChunks oracle translit input base0 vp = [] by
      simp [createAudiobookChunks, hie]]
    rw [inputIsEmpty_extract input hie]
    exact ⟨rfl, rfl⟩
  · by_cases hft : trim (extractFullText input) = []
    · rw [show createAudiobookChunks oracle translit input base0 vp = [] by
        simp [createAudiobookChunks, hie, hft]]
      have : stripWs (extractFullText input) = [] := by
        have := stripWs_trim (extractFullText input)
        rw [hft] at this
        exact this.symm
      rw [this]
      exact ⟨rfl, rfl⟩
    · have hparas : aggregateParagraphsIntoChunks
          (splitTextIntoParagraphs (trim (extractFullText input)))
          IDEAL_CHARS_PER_CHUNK_TARGET ≠ [] := by
        apply aggregate_ne_nil
        · intro hc
          have hstrip := splitTextIntoParagraphs_strip (trim (extractFullText input))
          rw [hc] at hstrip
          simp [stripWs_nil] at hstrip
          exact hft (trim_eq_nil_of_stripWs _ (by
            have h2 := stripWs_trim (extractFullText input)
            rw [← h2]
            exact hstrip))
        · exact splitTextIntoParagraphs_mem_ne_nil _
      have hunf : createAudiobookChunks oracle translit input base0 vp
          = validateLoop oracle vp (extractTitle input base0)
              (sanitizeFileNameBase (translit (extractTitle input base0))) 0 0
              (aggregateParagraphsIntoChunks
                (splitTextIntoParagraphs (trim (extractFullText input)))
                IDEAL_CHARS_PER_CHUNK_TARGET) := by
        simp [createAudiobookChunks, hie, hft, hparas]
      rw [hunf]
      constructor
      · rw [validateLoop_strip oracle vp _ _ _ 0 0 (by
          intro ch hch
          apply h ch
          rw [hunf]
          exact hch)]
        rw [aggregate_strip, splitTextIntoParagraphs_strip, stripWs_trim]
      · rw [(validateLoop_shape oracle vp (extractTitle input base0)
            (sanitizeFileNameBase (translit (extractTitle input base0)))
            (aggregateParagraphsIntoChunks
              (splitTextIntoParagraphs (trim (extractFullText input)))
              IDEAL_CHARS_PER_CHUNK_TARGET) 0 0).1, List.range_eq_range']

/-- Filename shape for every chunk of every pipeline run (the
aggregation-error branch of the source is unreachable: non-blank input
always yields at least one candidate). -/
theorem createAudiobookChunks_names (oracle : Oracle) (translit : List Char → List Char)
    (input : ChunksInput) (base0 vp : List Char) :
    ∀ ch ∈ createAudiobookChunks oracle translit input base0 vp,
    ∃ suffix, (suffix = ([] : List Char) ∨ suffix = str ("_OVERSIZED") ∨
      suffix = str ("_TOKEN_ERR") ∨ suffix = str ("_SUB_TOKEN_ERR")) ∧
    ch.fileName = mkFileName (sanitizeFileNameBase (translit (extractTitle input base0)))
      (ch.index + 1) suffix := by
  intro ch hch
  by_cases hie : inputIsEmpty input = true
  · rw [show createAudiobookChunks oracle translit input base0 vp = [] by
      simp [createAudiobookChunks, hie]] at hch
    simp at hch
  · by_cases hft : trim (extractFullText input) = []
    · rw [show createAudiobookChunks oracle translit input base0 vp = [] by
        simp [createAudiobookChunks, hie, hft]] at hch
      simp at hch
    · have hparas : aggregateParagraphsIntoChunks
          (splitTextIntoParagraphs (trim (extractFullText input)))
          IDEAL_CHARS_PER_CHUNK_TARGET ≠ [] := by
        apply aggregate_ne_nil
        · intro hc
          have hstrip := splitTextIntoParagraphs_strip (trim (extractFullText input))
          rw [hc] at hstrip
          simp [stripWs_nil] at hstrip
          exact hft (trim_eq_nil_of_stripWs _ (by
            have h2 := stripWs_trim (extractFullText input)
            rw [← h2]
            exact hstrip))
        · exact splitTextIntoParagraphs_mem_ne_nil _
      rw [show createAudiobookChunks oracle translit input base0 vp
          = validateLoop oracle vp (extractTitle input base0)
              (sanitizeFileNameBase (translit (extractTitle input base0))) 0 0
              (aggregateParagraphsIntoChunks
                (splitTextIntoParagraphs (trim (extractFullText input)))
                IDEAL_CHARS_PER_CHUNK_TARGET) by
        simp [createAudiobookChunks, hie, hft, hparas]] at hch
      rcases (validateLoop_shape oracle vp (extractTitle input base0)
          (sanitizeFileNameBase (translit (extractTitle input base0)))
          (aggregateParagraphsIntoChunks
            (splitTextIntoParagraphs (trim (extractFullText input)))
            IDEAL_CHARS_PER_CHUNK_TARGET) 0 0).2 ch hch with h | h | h | h
      · exact ⟨[], Or.inl rfl, h.1⟩
      · exact ⟨str ("_OVERSIZED"), Or.inr (Or.inl rfl), h.1⟩
      · exact ⟨str ("_TOKEN_ERR"), Or.inr (Or.inr (Or.inl rfl)), h.1⟩
      · exact ⟨str ("_SUB_TOKEN_ERR"), Or.inr (Or.inr (Or.inr rfl)), h.1⟩

/-! The WAV encoder on the C5 scenario. -/

theorem decode_sig (n : Nat) (r : List Nat) :
    decodeInt16Pairs ((List.replicate n [232, 3]).flatten ++ r)
      = List.replicate n (1000 : Int) ++ decodeInt16Pairs r := by
  induction n with
  | zero => simp
  | succ n ih =>
      rw [List.replicate_succ, List.flatten_cons]
      rw [show ([232, 3] ++ (List.replicate n [232, 3]).flatten) ++ r
          = 232 :: 3 :: ((List.replicate n [232, 3]).flatten ++ r) by simp]
      rw [show decodeInt16Pairs (232 :: 3 :: ((List.replicate n [232, 3]).flatten ++ r))
          = (1000 : Int) :: decodeInt16Pairs ((List.replicate n [232, 3]).flatten ++ r) by
        rw [show decodeInt16Pairs (232 :: 3 :: ((List.replicate n [232, 3]).flatten ++ r))
            = (if 32768 ≤ 232 % 256 + 256 * (3 % 256)
                then ((232 % 256 + 256 * (3 % 256) : Nat) : Int) - 65536
                else ((232 % 256 + 256 * (3 % 256) : Nat) : Int)) ::
              decodeInt16Pairs ((List.replicate n [232, 3]).flatten ++ r) from rfl]
        norm_num]
      rw [ih, List.replicate_succ]
      rfl

theorem decode_zero (n : Nat) (r : List Nat) :
    decodeInt16Pairs ((List.replicate n [0, 0]).flatten ++ r)
      = List.replicate n (0 : Int) ++ decodeInt16Pairs r := by
  induction n with
  | zero => simp
  | succ n ih =>
      rw [List.replicate_succ, List.flatten_cons]
      rw [show ([0, 0] ++ (List.replicate n [0, 0]).flatten) ++ r
          = 0 :: 0 :: ((List.replicate n [0, 0]).flatten ++ r) by simp]
      rw [show decodeInt16Pairs (0 :: 0 :: ((List.replicate n [0, 0]).flatten ++ r))
          = (if 32768 ≤ 0 % 256 + 256 * (0 % 256)
              then ((0 % 256 + 256 * (0 % 256) : Nat) : Int) - 65536
              else ((0 % 256 + 256 * (0 % 256) : Nat) : Int)) ::
            decodeInt16Pairs ((List.replicate n [0, 0]).flatten ++ r) from rfl]
      norm_num
      rw [ih, List.replicate_succ]
      rfl

theorem c5_decode : decodeInt16Pairs c5Pcm
    = List.replicate 120000 (1000 : Int) ++ List.replicate 72000 0 := by
  unfold c5Pcm
  rw [List.flatten_append, decode_sig]
  have h0 : decodeInt16Pairs (List.replicate 72000 [0, 0]).flatten
      = List.replicate 72000 (0 : Int) := by
    have h1 := decode_zero 72000 []
    rw [List.append_nil, show decodeInt16Pairs ([] : List Nat) = [] from rfl,
      List.append_nil] at h1
    exact h1
  rw [h0]

theorem findIdx?_replicate_none {α : Type} (p : α → Bool) (x : α) (hp : p x = false) :
    ∀ (n i : Nat), List.findIdx? p (List.replicate n x) i = none := by
  intro n
  induction n with
  | zero => intro i; rfl
  | succ n ih =>
      intro i
      rw [List.replicate_succ, List.findIdx?_cons, if_neg (by simp [hp])]
      exact ih (i + 1)

theorem flatten_replicate_length {α : Type} (n : Nat) (l : List α) :
    ((List.replicate n l).flatten).length = n * l.length := by
  induction n with
  | zero => simp
  | succ n ih =>
      rw [List.replicate_succ, List.flatten_cons, List.length_append, ih]
      ring

theorem c5Pcm_length : c5Pcm.length = 384000 := by
  unfold c5Pcm
  rw [List.flatten_append, List.length_append, flatten_replicate_length,
    flatten_replicate_length]
  norm_num

theorem findIdx?_replicate_pos {α : Type} (p : α → Bool) (x : α) (hp : p x = true)
    (n : Nat) (hn : 0 < n) : List.findIdx? p (List.replicate n x) = some 0 := by
  cases n with
  | zero => omega
  | succ n => rw [List.replicate_succ, List.findIdx?_cons, if_pos hp]

theorem findLastLoud_eq (samples : List Int) (j : Nat)
    (h : samples.reverse.findIdx? (fun v : Int => Nat.blt 5 v.natAbs) = some j) :
    findLastLoud samples = some (samples.length - 1 - j) := by
  unfold findLastLoud
  rw [h]

theorem c5_findLastLoud :
    findLastLoud (List.replicate 120000 (1000 : Int) ++ List.replicate 72000 0)
      = some 119999 := by
  have hidx : (List.replicate 120000 (1000 : Int)
        ++ List.replicate 72000 0).reverse.findIdx? (fun v : Int => Nat.blt 5 v.natAbs)
      = some 72000 := by
    rw [List.reverse_append, List.reverse_replicate, List.reverse_replicate,
      List.findIdx?_append, findIdx?_replicate_none _ (0 : Int) (by decide) 72000 0,
      findIdx?_replicate_pos _ (1000 : Int) (by decide) 120000 (by norm_num)]
    simp only [Option.map_some', Option.none_or, List.length_replicate]
  rw [findLastLoud_eq _ 72000 hidx, List.length_append, List.length_replicate,
    List.length_replicate]

theorem trimTrailingSilence_trims (pcm : List Nat) (sr i : Nat)
    (hne : pcm ≠ []) (hfll : findLastLoud (decodeInt16Pairs pcm) = some i)
    (hcond : 2 * sr < (decodeInt16Pairs pcm).length - i) :
    trimTrailingSilence pcm sr 16
      = pcm.take (2 * min (decodeInt16Pairs pcm).length (i + sr / 2)) := by
  unfold trimTrailingSilence
  rw [if_pos ⟨rfl, hne⟩]
  simp only [hfll]
  rw [if_pos hcond]

theorem c5_databytes : createWavDataBytes c5Pcm 24000 1 16 = c5Pcm.take 263998 := by
  have hne : c5Pcm ≠ [] := by
    intro hc
    have := c5Pcm_length
    rw [hc] at this
    simp at this
  have hfll : findLastLoud (decodeInt16Pairs c5Pcm) = some 119999 := by
    rw [c5_decode]
    exact c5_findLastLoud
  have hslen : (decodeInt16Pairs c5Pcm).length = 192000 := by
    rw [c5_decode, List.length_append, List.length_replicate, List.length_replicate]
  have htrim : trimTrailingSilence c5Pcm 24000 16 = c5Pcm.take 263998 := by
    rw [trimTrailingSilence_trims c5Pcm 24000 119999 hne hfll (by rw [hslen]; omega)]
    rw [hslen]
    rw [show 2 * min 192000 (119999 + 24000 / 2) = 263998 by decide]
  have hlen : (c5Pcm.take 263998).length = 263998 := by
    rw [List.length_take, c5Pcm_length]
    decide
  unfold createWavDataBytes
  rw [htrim]
  rw [if_neg (by decide : ¬ (1 * (16 / 8) = 0))]
  rw [if_pos (by rw [hlen])]

theorem createWavBlobFromPcm_drop44 (pcm : List Nat) (r c b : Nat) (h : pcm ≠ []) :
    (createWavBlobFromPcm pcm r c b).drop 44 = createWavDataBytes pcm r c b := by
  unfold createWavBlobFromPcm
  rw [if_neg h]
  apply List.drop_left'
  simp only [List.length_append, List.length_map,
    show ∀ n, (u32le n).length = 4 from fun n => rfl,
    show ∀ n, (u16le n).length = 2 from fun n => rfl,
    show (str ("RIFF")).length = 4 from rfl, show (str ("WAVE")).length = 4 from rfl,
    show (str ("fmt ")).length = 4 from rfl, show (str ("data")).length = 4 from rfl]

theorem c5_data_section_samples :
    ((createWavBlobFromPcm c5Pcm 24000 1 16).drop 44).length / 2 = 131999 := by
  have hne : c5Pcm ≠ [] := by
    intro hc
    have := c5Pcm_length
    rw [hc] at this
    simp at this
  rw [createWavBlobFromPcm_drop44 c5Pcm 24000 1 16 hne, c5_databytes, List.length_take,
    c5Pcm_length]
  decide

/-! The claims. -/

/-- C1, counterexample: with an oracle whose failure is not transient, the
single candidate degrades to an `error`-status chunk whose `text` is a
replacement message, so concatenating chunk texts no longer reproduces the
input even modulo whitespace — the claim is false as stated for error
chunks. -/
theorem c1_counterexample :
    (∃ ch ∈ createAudiobookChunks c1FailOracle id (ChunksInput.texts [str ("Hi")])
        (str ("Book")) [], ch.status = ChunkStatus.error) ∧
    stripWs (((createAudiobookChunks c1FailOracle id (ChunksInput.texts [str ("Hi")])
        (str ("Book")) []).map AudiobookChunk.text).flatten)
      ≠ stripWs (extractFullText (ChunksInput.texts [str ("Hi")])) := by
  decide

/-- C1 (amended): for every input and oracle behaviour, if the run produced
no `error`-status chunk (token counting never failed), concatenating the
text of all chunks in order — which is index order, the indices being
`0, 1, …` — and erasing whitespace reproduces the whitespace-erased input;
the text of `_OVERSIZED`-flagged chunks counts toward coverage, but an
error chunk's text is a replacement message, so error chunks are excluded. -/
theorem c1_coverage_no_error (oracle : Oracle) (translit : List Char → List Char)
    (input : ChunksInput) (base0 vp : List Char)
    (h : ∀ ch ∈ createAudiobookChunks oracle translit input base0 vp,
      ch.status ≠ ChunkStatus.error) :
    stripWs (((createAudiobookChunks oracle translit input base0 vp).map
      AudiobookChunk.text).flatten) = stripWs (extractFullText input) ∧
    (createAudiobookChunks oracle translit input base0 vp).map AudiobookChunk.index
      = List.range (createAudiobookChunks oracle translit input base0 vp).length :=
  createAudiobookChunks_coverage oracle translit input base0 vp h

/-- C1 witness: a run that accepts its single candidate. -/
theorem c1_coverage_no_error_witness :
    stripWs (((createAudiobookChunks c1WitnessOracle id (ChunksInput.texts [str ("Hello")])
      (str ("Book")) []).map AudiobookChunk.text).flatten)
      = stripWs (extractFullText (ChunksInput.texts [str ("Hello")])) ∧
    (createAudiobookChunks c1WitnessOracle id (ChunksInput.texts [str ("Hello")])
      (str ("Book")) []).map AudiobookChunk.index
      = List.range (createAudiobookChunks c1WitnessOracle id
          (ChunksInput.texts [str ("Hello")]) (str ("Book")) []).length :=
  c1_coverage_no_error c1WitnessOracle id (ChunksInput.texts [str ("Hello")])
    (str ("Book")) [] (by decide)

/-- C2, counterexample: an oracle that answers 3500 tokens makes the
candidate oversized by the ideal bound, the re-split returns it unchanged,
and the sub-segment is accepted with no `_OVERSIZED` flag and no error —
yet its `tokenCount` is 3500 > `IDEAL_CHUNK_TOKEN_UPPER_BOUND` = 3000, so
the claimed bound fails. -/
theorem c2_counterexample :
    ((createAudiobookChunks c2Oracle id (ChunksInput.texts [str ("Hello")])
      (str ("Book")) []).map
        (fun ch => (ch.status, ch.tokenCount,
          endsWith (str ("_OVERSIZED.wav")) ch.fileName)))
      = [(ChunkStatus.pending, some 3500, false)] ∧
    ¬ (3500 ≤ IDEAL_CHUNK_TOKEN_UPPER_BOUND) := by
  decide

/-- C2 (amended): every chunk that is neither `error`-status nor
`_OVERSIZED`-flagged satisfies `tokenCount ≤ MAX_TTS_TOKENS` (8000); the
tighter `IDEAL_CHUNK_TOKEN_UPPER_BOUND` (3000) is enforced only for
candidates accepted without re-splitting, not for re-split sub-segments. -/
theorem c2_token_bound (oracle : Oracle) (translit : List Char → List Char)
    (input : ChunksInput) (base0 vp : List Char) :
    ∀ ch ∈ createAudiobookChunks oracle translit input base0 vp,
    ch.status ≠ ChunkStatus.error →
    endsWith (str ("_OVERSIZED.wav")) ch.fileName = false →
    ∃ n, ch.tokenCount = some n ∧ n ≤ MAX_TTS_TOKENS := by
  intro ch hch hstatus hsuffix
  by_cases hie : inputIsEmpty input = true
  · rw [show createAudiobookChunks oracle translit input base0 vp = [] by
      simp [createAudiobookChunks, hie]] at hch
    simp at hch
  · by_cases hft : trim (extractFullText input) = []
    · rw [show createAudiobookChunks oracle translit input base0 vp = [] by
        simp [createAudiobookChunks, hie, hft]] at hch
      simp at hch
    · by_cases hcand : aggregateParagraphsIntoChunks
          (splitTextIntoParagraphs (trim (extractFullText input)))
          IDEAL_CHARS_PER_CHUNK_TARGET = []
      · rw [show createAudiobookChunks oracle translit input base0 vp
            = [{ index := 0, text := str ("Error: Could not aggregate paragraphs into chunks."),
                 chapterTitle := none,
                 fileName := base0 ++ str ("_Part_001_AGGREGATE_ERR.wav"),
                 status := ChunkStatus.error, tokenCount := none,
                 errorDetails :=
                   some (str ("Paragraph aggregation yielded no segments from non-empty input.")) }] by
          simp [createAudiobookChunks, hie, hft, hcand]] at hch
        simp at hch
        rw [hch] at hstatus
        exact absurd rfl hstatus
      · rw [show createAudiobookChunks oracle translit input base0 vp
            = validateLoop oracle vp (extractTitle input base0)
                (sanitizeFileNameBase (translit (extractTitle input base0))) 0 0
                (aggregateParagraphsIntoChunks
                  (splitTextIntoParagraphs (trim (extractFullText input)))
                  IDEAL_CHARS_PER_CHUNK_TARGET) by
          simp [createAudiobookChunks, hie, hft, hcand]] at hch
        rcases (validateLoop_shape oracle vp (extractTitle input base0)
            (sanitizeFileNameBase (translit (extractTitle input base0)))
            (aggregateParagraphsIntoChunks
              (splitTextIntoParagraphs (trim (extractFullText input)))
              IDEAL_CHARS_PER_CHUNK_TARGET) 0 0).2 ch hch with h | h | h | h
        · exact h.2.2
        · rw [h.1, oversized_name_endsWith] at hsuffix
          cases hsuffix
        · exact absurd h.2 hstatus
        · exact absurd h.2 hstatus

/-- C2 witness: a run whose single chunk is accepted directly. -/
theorem c2_token_bound_witness :
    ∃ n, ((createAudiobookChunks c2WitnessOracle id (ChunksInput.texts [str ("Hello")])
      (str ("Book")) []).headD default).tokenCount = some n ∧ n ≤ MAX_TTS_TOKENS :=
  c2_token_bound c2WitnessOracle id (ChunksInput.texts [str ("Hello")]) (str ("Book")) []
    ((createAudiobookChunks c2WitnessOracle id (ChunksInput.texts [str ("Hello")])
      (str ("Book")) []).headD default) (by decide) (by decide) (by decide)

/-- C3: `forceSplitTextRecursive_SYNC` terminates with recursion depth
bounded by the depth limit — any fuel of at least `17 - depth` (and at
least 1) computes the definition's value, for every input string, target
and starting depth, whitespace-free or not — and for every positive target
the character-window fallback's cursor strictly advances at each
iteration. -/
theorem c3_termination :
    (∀ (text : List Char) (targetCharLength depth fuel : Nat),
      1 ≤ fuel → 17 ≤ fuel + depth →
      forceSplitF targetCharLength fuel text depth
        = forceSplitTextRecursive_SYNC text targetCharLength depth) ∧
    (∀ (text : List Char) (targetCharLength cp : Nat),
      0 < targetCharLength → cp < text.length →
      cp < charWindowStep text targetCharLength cp) := by
  constructor
  · intro text target depth fuel h1 h2
    unfold forceSplitTextRecursive_SYNC
    exact forceSplitF_stable target fuel 17 text depth h1 h2 (by omega) (by omega)
  · intro text target cp ht hcp
    exact (charWindowStep_progress text target cp ht hcp).1

/-- C3 witness. -/
theorem c3_termination_witness :
    forceSplitF 1 20 (str ("ab")) 0 = forceSplitTextRecursive_SYNC (str ("ab")) 1 0 ∧
    0 < charWindowStep (str ("ab")) 1 0 :=
  ⟨c3_termination.1 (str ("ab")) 1 0 20 (by decide) (by decide),
   c3_termination.2 (str ("ab")) 1 0 (by decide) (by decide)⟩

/-- C4: the source's aggregator computes exactly the procedure the claim
describes (greedy blank-line-joined buffer, flush on strict overflow with a
non-empty buffer, immediate standalone emission of a lone over-target
paragraph, final flush); the only textual difference — the source emits a
standalone paragraph already at `length = charTarget` where the claim says
"exceeds" — never changes any output. -/
theorem c4_aggregator_greedy (paragraphs : List (List Char)) (charTarget : Nat)
    (ht : 0 < charTarget) :
    aggregateParagraphsIntoChunks paragraphs charTarget
      = specAggregate paragraphs charTarget :=
  aggAux_eq_specAggAux charTarget ht paragraphs []

/-- C4 witness. -/
theorem c4_aggregator_greedy_witness :
    aggregateParagraphsIntoChunks [str ("aa"), str ("bb"), str ("c")] 5
      = specAggregate [str ("aa"), str ("bb"), str ("c")] 5 :=
  c4_aggregator_greedy [str ("aa"), str ("bb"), str ("c")] 5 (by decide)

/-- C5, counterexample: on 120,000 over-threshold samples followed by
72,000 silent ones at 24 kHz, the data section of the emitted WAV does NOT
hold 132,000 samples: the code computes `lastNonSilentSample +
paddingSamples` = 119999 + 12000 = 131,999, one sample short of the claimed
signal-plus-half-second. -/
theorem c5_counterexample :
    ((createWavBlobFromPcm c5Pcm 24000 1 16).drop 44).length / 2 ≠ 132000 := by
  rw [c5_data_section_samples]
  decide

/-- C5 (amended): the scenario's data section holds exactly 131,999
samples — the 120,000 signal samples plus 11,999 samples of padding
(`min(samples, lastNonSilentSample + floor(0.5 × sampleRate))` keeps
indices 0 … 131998). -/
theorem c5_silence_trim_scenario :
    ((createWavBlobFromPcm c5Pcm 24000 1 16).drop 44).length / 2 = 131999 :=
  c5_data_section_samples

/-- Fallback form of the splitter on whitespace-free, punctuation-free
text at depth 0: no paragraph or sentence boundary exists, so the result is
the character-window split. -/
theorem forceSplitF_eq_fallback (target fuel : Nat) (text : List Char)
    (h1 : ¬ trim text = [])
    (h4 : splitOnBlankLines text = [text])
    (h5 : ((splitSentences text).map trim).filter (fun s => !s.isEmpty) = [text]) :
    forceSplitF target (fuel + 1) text 0
      = (if charWindowSplit text target = [] ∧ text ≠ [] then [text]
         else charWindowSplit text target).filter (fun s => !s.isEmpty) := by
  simp only [forceSplitF]
  rw [if_neg h1]
  rw [if_neg (show ¬ 15 < 0 by omega)]
  rw [if_neg (show ¬ (2 * text.length ≤ 3 * target ∧ 0 < 0) from
    fun hcontra => absurd hcontra.2 (by omega))]
  rw [h4]
  rw [if_neg (show ¬ 1 < ([text] : List (List Char)).length by simp)]
  rw [h5]
  rw [if_neg (show ¬ 1 < ([text] : List (List Char)).length by simp)]

theorem forceSplit_no_boundaries (text : List Char) (target : Nat)
    (hws : ∀ c ∈ text, isWs c = false)
    (hnp : ∀ c ∈ text, isSentEnd c = false ∧ ¬ c = '\n')
    (hne : text ≠ []) (hres : charWindowSplit text target ≠ []) :
    forceSplitTextRecursive_SYNC text target 0
      = (charWindowSplit text target).filter (fun s => !s.isEmpty) := by
  have htrim : trim text = text := trim_eq_self_of_no_ws text hws
  have h5 : ((splitSentences text).map trim).filter (fun s => !s.isEmpty) = [text] := by
    rw [splitSentences_no_match text hnp, List.map_cons, List.map_nil, htrim]
    apply List.filter_eq_self.mpr
    intro p hp
    simp at hp
    rw [hp]
    cases hq : text with
    | nil => exact absurd hq hne
    | cons c rest => rfl
  rw [show forceSplitTextRecursive_SYNC text target 0 = forceSplitF target (16 + 1) text 0
    from rfl]
  rw [forceSplitF_eq_fallback target 16 text (by rw [htrim]; exact hne)
    (splitOnBlankLines_no_nl text (fun c hc => (hnp c hc).2)) h5]
  rw [if_neg (show ¬ (charWindowSplit text target = [] ∧ text ≠ []) from
    fun hcontra => absurd hcontra.1 hres)]

/-- C6: a 20,000-character single paragraph with no whitespace and no
sentence punctuation, split with target character length 500, yields
exactly 40 fragments, each of at most 500 characters. -/
theorem c6_char_window_scenario :
    (forceSplitTextRecursive_SYNC (List.replicate 20000 'a') 500 0).length = 40 ∧
    (forceSplitTextRecursive_SYNC (List.replicate 20000 'a') 500 0).all
      (fun p => decide (p.length ≤ 500)) = true := by
  have hmem : ∀ c ∈ List.replicate 20000 'a', c = 'a' :=
    fun c hc => List.eq_of_mem_replicate hc
  have hws : ∀ c ∈ List.replicate 20000 'a', isWs c = false := by
    intro c hc
    rw [hmem c hc]
    decide
  have hnp : ∀ c ∈ List.replicate 20000 'a', isSentEnd c = false ∧ ¬ c = '\n' := by
    intro c hc
    rw [hmem c hc]
    exact ⟨by decide, by decide⟩
  have hlen : (List.replicate 20000 'a').length = 20000 := List.length_replicate 20000 'a'
  have hne : List.replicate 20000 'a' ≠ [] := by
    intro hc
    rw [hc] at hlen
    simp at hlen
  have hcount := charWindowLoopF_count (List.replicate 20000 'a') 500 (by omega) hws
    (List.replicate 20000 'a').length 0 (by omega)
  have hcount1 : (charWindowSplit (List.replicate 20000 'a') 500).length = 40 := by
    rw [charWindowSplit, hcount.1, hlen]
  have hcount2 : ∀ p ∈ charWindowSplit (List.replicate 20000 'a') 500,
      p.length ≤ 500 ∧ p ≠ [] := fun p hp => hcount.2 p hp
  have hresne : charWindowSplit (List.replicate 20000 'a') 500 ≠ [] := by
    intro hc
    rw [hc] at hcount1
    simp at hcount1
  have hfilter : (charWindowSplit (List.replicate 20000 'a') 500).filter
      (fun s => !s.isEmpty) = charWindowSplit (List.replicate 20000 'a') 500 := by
    apply List.filter_eq_self.mpr
    intro p hp
    cases hq : p with
    | nil => exact absurd hq (hcount2 p hp).2
    | cons c rest => rfl
  rw [forceSplit_no_boundaries (List.replicate 20000 'a') 500 hws hnp hne hresne, hfilter]
  refine ⟨hcount1, ?_⟩
  rw [List.all_eq_true]
  intro p hp
  simp only [decide_eq_true_eq]
  exact (hcount2 p hp).1

/-- C7: within one `countTokensForText` call a server-classified failure is
retried with linearly increasing delay: two server errors then a success
yield the count with 3 calls (2 retries) and delays 1000 ms, 2000 ms, and
the candidate is accepted with no error; a non-transient failure throws
after a single call, every retry of a persistent server error is consumed
(3 calls, same delays) before the error propagates, and a failed candidate
becomes exactly one `error`-status chunk carrying the failure detail, with
no further processing of that candidate. -/
theorem c7_retry_semantics :
    countTokensForText c7SrvOracle 0 [] (str ("Hello"))
      = { result := Except.ok 42, callsMade := 3, delays := [1000, 2000] } ∧
    ((createAudiobookChunks c7SrvOracle id (ChunksInput.texts [str ("Hello")])
        (str ("Book")) []).map (fun ch => (ch.status, ch.tokenCount)))
      = [(ChunkStatus.pending, some 42)] ∧
    countTokensForText c7BadOracle 0 [] (str ("Hello"))
      = { result := Except.error (str ("Bad request")), callsMade := 1, delays := [] } ∧
    countTokensForText c7ExhaustOracle 0 [] (str ("Hello"))
      = { result := Except.error (str ("http 500")), callsMade := 3,
          delays := [1000, 2000] } ∧
    ((createAudiobookChunks c7BadOracle id (ChunksInput.texts [str ("Hello")])
        (str ("Book")) []).map (fun ch => (ch.status, ch.errorDetails)))
      = [(ChunkStatus.error,
          some (str ("Token counting failed for this candidate chunk: Bad request")))] := by
  decide

/-- C8, counterexample: the source increments `chunkIndex` before building
the filename, so the first chunk (index 0) is named `…_Part_001.wav`, not
`…_Part_000{suffix}.wav` for any of the four suffixes — the filename
carries the 1-based position, not the chunk's 0-based index. -/
theorem c8_counterexample :
    ((createAudiobookChunks c8Oracle id (ChunksInput.texts [str ("Hello")])
      (str ("Book")) []).map (fun ch => (ch.index, ch.fileName)))
      = [(0, str ("Book_Part_001.wav"))] ∧
    str ("Book_Part_001.wav") ≠ mkFileName (sanitizeFileNameBase (str ("Book"))) 0 [] ∧
    str ("Book_Part_001.wav")
      ≠ mkFileName (sanitizeFileNameBase (str ("Book"))) 0 (str ("_OVERSIZED")) ∧
    str ("Book_Part_001.wav")
      ≠ mkFileName (sanitizeFileNameBase (str ("Book"))) 0 (str ("_TOKEN_ERR")) ∧
    str ("Book_Part_001.wav")
      ≠ mkFileName (sanitizeFileNameBase (str ("Book"))) 0 (str ("_SUB_TOKEN_ERR")) := by
  decide

/-- C8 (amended): every chunk's filename is the sanitized title base,
`_Part_`, the chunk's own index PLUS ONE zero-padded to three digits, a
suffix from {"", "_OVERSIZED", "_TOKEN_ERR", "_SUB_TOKEN_ERR"}, and
`.wav`. -/
theorem c8_filename_convention (oracle : Oracle) (translit : List Char → List Char)
    (input : ChunksInput) (base0 vp : List Char) :
    ∀ ch ∈ createAudiobookChunks oracle translit input base0 vp,
    ∃ suffix, (suffix = ([] : List Char) ∨ suffix = str ("_OVERSIZED") ∨
      suffix = str ("_TOKEN_ERR") ∨ suffix = str ("_SUB_TOKEN_ERR")) ∧
    ch.fileName = mkFileName (sanitizeFileNameBase (translit (extractTitle input base0)))
      (ch.index + 1) suffix :=
  createAudiobookChunks_names oracle translit input base0 vp

/-- C8 witness. -/
theorem c8_filename_convention_witness :
    ∃ suffix, (suffix = ([] : List Char) ∨ suffix = str ("_OVERSIZED") ∨
      suffix = str ("_TOKEN_ERR") ∨ suffix = str ("_SUB_TOKEN_ERR")) ∧
    ((createAudiobookChunks c8Oracle id (ChunksInput.texts [str ("Hello")])
      (str ("Book")) []).headD default).fileName
      = mkFileName (sanitizeFileNameBase (id (extractTitle
          (ChunksInput.texts [str ("Hello")]) (str ("Book")))))
        (((createAudiobookChunks c8Oracle id (ChunksInput.texts [str ("Hello")])
          (str ("Book")) []).headD default).index + 1) suffix :=
  c8_filename_convention c8Oracle id (ChunksInput.texts [str ("Hello")]) (str ("Book")) []
    ((createAudiobookChunks c8Oracle id (ChunksInput.texts [str ("Hello")])
      (str ("Book")) []).headD default) (by decide)

/-- C9, counterexample: the whitespace-only string " " is non-empty, yet
the splitter returns the empty fragment list (the source returns `[]` for
blank input), so "always at least one fragment for non-empty input" is
false as stated. -/
theorem c9_counterexample :
    str (" ") ≠ [] ∧ forceSplitTextRecursive_SYNC (str (" ")) 10 0 = [] := by
  decide

/-- C9 (amended): for every input containing at least one non-whitespace
character, every depth and every positive target, the splitter returns a
non-empty fragment list whose concatenation equals the input modulo
whitespace. -/
theorem c9_splitter_totality (text : List Char) (targetCharLength depth : Nat)
    (ht : 0 < targetCharLength) (hcontent : stripWs text ≠ []) :
    forceSplitTextRecursive_SYNC text targetCharLength depth ≠ [] ∧
    stripWs (forceSplitTextRecursive_SYNC text targetCharLength depth).flatten
      = stripWs text := by
  unfold forceSplitTextRecursive_SYNC
  exact ⟨forceSplitF_ne_nil targetCharLength ht 17 text depth hcontent,
    forceSplitF_strip targetCharLength ht 17 text depth⟩

/-- C9 witness. -/
theorem c9_splitter_totality_witness :
    forceSplitTextRecursive_SYNC (str ("Hi")) 10 0 ≠ [] ∧
    stripWs (forceSplitTextRecursive_SYNC (str ("Hi")) 10 0).flatten
      = stripWs (str ("Hi")) :=
  c9_splitter_totality (str ("Hi")) 10 0 (by decide) (by decide)

/-- C10, counterexample: a paragraph with leading whitespace survives
aggregation verbatim but is trimmed by the re-split, so re-aggregating
yields different chunk text — idempotence fails for arbitrary paragraph
lists. -/
theorem c10_counterexample :
    aggregateParagraphsIntoChunks
      ((aggregateParagraphsIntoChunks [str (" a")] 10).flatMap splitTextIntoParagraphs) 10
      ≠ aggregateParagraphsIntoChunks [str (" a")] 10 := by
  decide

/-- C10 (amended): for paragraphs in the splitter's own normal form
(non-empty, trimmed, containing no blank-line separator) — which is exactly
what `splitTextIntoParagraphs` produces — re-splitting the aggregator's
output into paragraphs gives back the original paragraph list, so
re-aggregating with the same `charTarget` reproduces the same candidate
chunks. -/
theorem c10_aggregation_idempotent (ps : List (List Char)) (charTarget : Nat)
    (_ht : 0 < charTarget)
    (h : ∀ p ∈ ps, p ≠ [] ∧ trim p = p ∧ hasDoubleNl p = false) :
    aggregateParagraphsIntoChunks
      ((aggregateParagraphsIntoChunks ps charTarget).flatMap splitTextIntoParagraphs)
      charTarget
      = aggregateParagraphsIntoChunks ps charTarget := by
  have hres : (aggregateParagraphsIntoChunks ps charTarget).flatMap splitTextIntoParagraphs
      = ps := by
    have := aggAux_resplit charTarget ps h [] (by simp)
    simpa [aggregateParagraphsIntoChunks, joinWith] using this
  rw [hres]

/-- C10 witness. -/
theorem c10_aggregation_idempotent_witness :
    aggregateParagraphsIntoChunks
      ((aggregateParagraphsIntoChunks [str ("ab")] 5).flatMap splitTextIntoParagraphs) 5
      = aggregateParagraphsIntoChunks [str ("ab")] 5 :=
  c10_aggregation_idempotent [str ("ab")] 5 (by decide) (by decide)

end AudiobookReader
